import Mathlib

/-!
Verification development for the checkers-prototype repository (single file
`main.py`).  The Python program is shallowly embedded: every class becomes a
Lean structure, mutable object references become positions (list indices) into
the owning collection (the object arenas `GameBoard.tiles1`, `GameBoard.pieces`
and `ImageHeap.cells`), and each method becomes a pure function from the old
state to the new state.  Machine integers do not occur (Python integers are
unbounded), so pixel coordinates are `Int` and counters are `Nat`.

Pygame-specific rendering calls (`blit`, `display.flip`, surface contents) are
not modelled; of a surface we keep exactly what the program reads back from it:
its bounding rectangle (`get_rect`) and its alpha value (`set_alpha`).
-/

/-! ### Constants (module-level constants of `main.py` that the game logic reads) -/

def DISPLAY_WIDTH : Int := 800
def DISPLAY_HEIGHT : Int := 600
def GAME_BOARD_TILE_WIDTH : Int := 32
def GAME_BOARD_TILE_HEIGHT : Int := 32
def GAME_BOARD_TILE_ALPHA_SELECTED : Nat := 127
def GAME_BOARD_TILE_ALPHA_NORMAL : Nat := 255
def GAME_BOARD_NUM_PIECES : Nat := 12

/-! ### Rectangles

`pygame.Rect` with integer position and size.  `collidepoint` is true inside
the rectangle, where the top and left edges are inside and the right and
bottom edges are outside (pygame's documented semantics). -/

structure Rect where
  x : Int
  y : Int
  w : Int
  h : Int
  deriving Repr, DecidableEq

def Rect.collidepoint (r : Rect) (px py : Int) : Bool :=
  decide (r.x ≤ px) && decide (px < r.x + r.w) &&
  decide (r.y ≤ py) && decide (py < r.y + r.h)

/-! ### Tiles

`GameTile.__init__` fields.  `piece` holds the position of the occupant in the
board's piece arena (`None` in Python = `none`).  The `x`/`y` property setters
also write the cached rectangle's position, which `set_x`/`set_y` mirror.
The surface itself is kept only as its alpha value (`alpha`); a freshly loaded
or copied surface is fully opaque, i.e. alpha `GAME_BOARD_TILE_ALPHA_NORMAL`. -/

structure GameTile where
  index : Nat
  x : Int
  y : Int
  layer : Nat
  selected : Bool
  piece : Option Nat
  rect : Rect
  alpha : Nat
  deriving Repr, DecidableEq

def GameTile.set_x (t : GameTile) (x : Int) : GameTile :=
  { t with x := x, rect := { t.rect with x := x } }

def GameTile.set_y (t : GameTile) (y : Int) : GameTile :=
  { t with y := y, rect := { t.rect with y := y } }

/-! ### Pieces

`GamePiece` inherits every `GameTile` field (the inherited `piece` slot of a
piece is never written and stays `None`) and adds `_tile` (position of the
home tile in the board's layer-1 tile arena) and `_blinking`.  The structure
is flattened. -/

structure GamePiece where
  index : Nat
  x : Int
  y : Int
  layer : Nat
  selected : Bool
  piece : Option Nat
  rect : Rect
  alpha : Nat
  tile : Option Nat
  blinking : Bool
  deriving Repr, DecidableEq

def GamePiece.set_x (p : GamePiece) (x : Int) : GamePiece :=
  { p with x := x, rect := { p.rect with x := x } }

def GamePiece.set_y (p : GamePiece) (y : Int) : GamePiece :=
  { p with y := y, rect := { p.rect with y := y } }

/-! ### The Python property declarations of `GamePiece`

Python executes a class body top to bottom, and a decorator binds its result
to the *name of the decorated function*.  `main.py` declares, in order:

    @property
    def tile(self): return self._tile

    @tile.setter
    def tile(self, tile): self._tile = tile

    @property
    def blinking(self): return self._blinking

    @tile.setter
    def blinking(self, blinking): self._blinking = blinking

so the class attribute `tile` ends up as `property(tile_fget, tile_fset)`,
while the attribute `blinking` is first bound to `property(blinking_fget)`
and then REBOUND to `tile.setter(blinking_fset)`, that is, to a property
whose getter is the TILE getter and whose setter stores into `_blinking`.
We model a property as a getter/setter pair over a dynamic value type and
replay the class-body evaluation literally. -/

inductive PyVal where
  | vbool : Bool → PyVal
  | vtile : Option Nat → PyVal
  deriving Repr, DecidableEq

/-- Coercions the two setter bodies rely on; only booleans ever flow into
`_blinking` and only tile references into `_tile` in the program. -/
def PyVal.getBool : PyVal → Bool
  | .vbool b => b
  | .vtile _ => false

def PyVal.getTile : PyVal → Option Nat
  | .vtile t => t
  | .vbool _ => none

structure PyProperty (α : Type) where
  fget : α → PyVal
  fset : α → PyVal → α

/-- `property.setter(f)`: a copy of the property with the setter replaced. -/
def PyProperty.withSetter {α : Type} (pr : PyProperty α) (f : α → PyVal → α) :
    PyProperty α :=
  { pr with fset := f }

def GamePiece.tileFget (p : GamePiece) : PyVal := .vtile p.tile

def GamePiece.tileFset (p : GamePiece) (v : PyVal) : GamePiece :=
  { p with tile := v.getTile }

def GamePiece.blinkingFget (p : GamePiece) : PyVal := .vbool p.blinking

def GamePiece.blinkingFset (p : GamePiece) (v : PyVal) : GamePiece :=
  { p with blinking := v.getBool }

/-- The class attribute `tile` after both `tile` declarations ran. -/
def GamePiece.tileProperty : PyProperty GamePiece :=
  PyProperty.mk GamePiece.tileFget GamePiece.tileFset

/-- The class attribute `blinking` after the whole class body ran: the second
declaration `@tile.setter def blinking ...` rebinds the name `blinking` to
`tile.setter(blinking_fset)`, discarding the earlier
`property(blinking_fget)`. -/
def GamePiece.blinkingProperty : PyProperty GamePiece :=
  GamePiece.tileProperty.withSetter GamePiece.blinkingFset

/-- `GamePiece.tick`: accesses `self._selected`, `self._blinking` and the
surface directly (no properties involved).  While selected the blink flag
alternates; the surface alpha then tracks the blink flag. -/
def GamePiece.tick (p : GamePiece) : GamePiece :=
  let p := if p.selected then { p with blinking := !p.blinking } else p
  if p.blinking then { p with alpha := GAME_BOARD_TILE_ALPHA_SELECTED }
  else { p with alpha := GAME_BOARD_TILE_ALPHA_NORMAL }

/-! ### Mouse (`GameMouse`)

The constructor presets both generations to all-released at the origin;
`tick` snapshots the current generation into the `last_*` fields and then
stores the freshly sampled pointer state.  The fresh sample is the external
input of a frame. -/

structure MouseInput where
  pressed : Bool × Bool × Bool
  pos : Int × Int
  deriving Repr, DecidableEq

structure GameMouse where
  pressed : Bool × Bool × Bool
  last_pressed : Bool × Bool × Bool
  pos : Int × Int
  last_pos : Int × Int
  deriving Repr, DecidableEq

def GameMouse.start : GameMouse :=
  { pressed := (false, false, false), last_pressed := (false, false, false)
    pos := (0, 0), last_pos := (0, 0) }

def GameMouse.tick (m : GameMouse) (inp : MouseInput) : GameMouse :=
  { pressed := inp.pressed, last_pressed := m.pressed
    pos := inp.pos, last_pos := m.pos }

/-! ### Resource cache (`GameResources`)

Python surfaces are heap objects; `self._images[name]` is a reference into
that heap and `.copy()` allocates a fresh object with the same pixel payload.
We make the heap explicit: an arena of image payloads, with references being
arena positions.  An image payload is its pixel data, abstracted as a list of
naturals.  `get_image` looks the name up, copies the payload into a fresh
cell and returns the new reference; an unknown name raises
`RuntimeError("Failed to get unknown cached image: %s!" % name)`. -/

abbrev Image := List Nat

structure ImageHeap where
  cells : List Image
  deriving Repr, DecidableEq

def ImageHeap.read (h : ImageHeap) (ref : Nat) : Option Image :=
  h.cells[ref]?

/-- Mutating the pixel payload of the surface at `ref` (e.g. drawing on it). -/
def ImageHeap.write (h : ImageHeap) (ref : Nat) (img : Image) : ImageHeap :=
  ⟨h.cells.set ref img⟩

structure GameResources where
  images : List (String × Nat)
  sounds : List (String × Nat)
  deriving Repr, DecidableEq

def GameResources.lookupImage (r : GameResources) (name : String) : Option Nat :=
  (r.images.find? (fun e => e.1 = name)).map (·.2)

def imageErrMsg (name : String) : String :=
  "Failed to get unknown cached image: " ++ name ++ "!"

/-- `GameResources.get_image`.  The dangling-reference fallback inside the
registered branch is unreachable: in Python a dictionary entry is itself the
live object, so a registered name always has a payload; it is kept only to
make the function total. -/
def GameResources.get_image (h : ImageHeap) (r : GameResources) (name : String) :
    Except String (ImageHeap × Nat) :=
  match r.lookupImage name with
  | none => .error (imageErrMsg name)
  | some ref =>
    match h.read ref with
    | some img => .ok (⟨h.cells ++ [img]⟩, h.cells.length)
    | none => .ok (⟨h.cells ++ [[]]⟩, h.cells.length)

/-! ### The board (`GameBoard`)

The board owns two object arenas: `tiles1` (the interactive layer-1 tiles,
Python's `self._tmx_tile_data[1]`, a dict with insertion-ordered values) and
`pieces` (Python's `self._pieces`, likewise).  Layer-0 tiles (`tiles0`) are
carried along but the controller never reads them after setup; map layers
beyond 1 are never read at all and are omitted.  Python object references are
arena positions: `tmx_tile_selected` and a piece's `tile` point into
`tiles1`, `piece_selected` and a tile's `piece` point into `pieces`. -/

structure GameBoard where
  x : Int
  y : Int
  pieces : List GamePiece
  piece_selected : Option Nat
  tiles0 : List GameTile
  tiles1 : List GameTile
  tmx_tile_selected : Option Nat
  deriving Repr, DecidableEq

/-- `GameBoard.__init__` (the tile dicts start empty; the map file itself is
loaded, but its contents only reach the board through `setup`). -/
def GameBoard.start (bx bY : Int) : GameBoard :=
  { x := bx, y := bY, pieces := [], piece_selected := none
    tiles0 := [], tiles1 := [], tmx_tile_selected := none }

/-- One non-empty map cell handed to `place_tile` during the setup scan:
grid coordinates, layer, and the size of the cell's surface (the only datum
of the surface that `get_rect` exposes). -/
structure MapCell where
  x : Nat
  y : Nat
  layer : Nat
  w : Int
  h : Int
  deriving Repr, DecidableEq

/-- Body of `place_tile`: a fresh tile, `index = len(dict)+1`,
`surface = surface.copy()` (rect `(0,0,w,h)`, alpha normal), then the `x`,
`y` property setters (each also positions the rect) and the layer. -/
def mkGameTile (idx : Nat) (c : MapCell) : GameTile :=
  let t : GameTile :=
    { index := idx, x := 0, y := 0, layer := 0, selected := false,
      piece := none, rect := ⟨0, 0, c.w, c.h⟩,
      alpha := GAME_BOARD_TILE_ALPHA_NORMAL }
  let t := t.set_x (Int.ofNat c.x * GAME_BOARD_TILE_WIDTH)
  let t := t.set_y (Int.ofNat c.y * GAME_BOARD_TILE_HEIGHT)
  { t with layer := c.layer }

/-- `GameBoard.place_tile`, storing into the dict of the cell's layer. -/
def GameBoard.place_tile (b : GameBoard) (c : MapCell) : GameBoard :=
  if c.layer = 0 then
    { b with tiles0 := b.tiles0 ++ [mkGameTile (b.tiles0.length + 1) c] }
  else if c.layer = 1 then
    { b with tiles1 := b.tiles1 ++ [mkGameTile (b.tiles1.length + 1) c] }
  else b

/-- `GameBoard.place_piece` on the tile at position `tk` of `tiles1`, with a
piece surface of size `w × h` (the `piece_black` image).  The fresh piece gets
`index = len(pieces)+1`, the surface, and the tile's position via the
`x`/`y` setters; then the mutual references are wired:
`tile.piece = piece; piece.tile = tile`.  The `none` branch cannot arise from
the program (`random.choice` always yields an element of the list). -/
def GameBoard.place_piece (b : GameBoard) (tk : Nat) (w h : Int) : GameBoard :=
  match b.tiles1[tk]? with
  | none => b
  | some t =>
    let pk := b.pieces.length
    let p : GamePiece :=
      { index := b.pieces.length + 1, x := 0, y := 0, layer := 0,
        selected := false, piece := none, rect := ⟨0, 0, w, h⟩,
        alpha := GAME_BOARD_TILE_ALPHA_NORMAL, tile := none, blinking := false }
    let p := p.set_x t.x
    let p := p.set_y t.y
    { b with pieces := b.pieces ++ [{ p with tile := some tk }],
             tiles1 := b.tiles1.set tk { t with piece := some pk } }

/-- `GameBoard.setup`, parametrised by the data the external collaborators
feed it: `cells` is the sequence of non-empty map cells in the scan order of
the x/y/layer loops, `choices` are the positions inside the inner-tile list
picked by the twelve `random.choice(inner_tiles)` calls, and `w × h` is the
size of the `piece_black` image.  After placing the tiles, every tile of
layers 0 and 1 is shifted by `board.xy - (len(all_tiles) + tile_size)`
through the position setters, and then the pieces are placed. -/
def GameBoard.setup (b : GameBoard) (cells : List MapCell) (choices : List Nat)
    (w h : Int) : GameBoard :=
  let b := cells.foldl GameBoard.place_tile b
  let n : Int := Int.ofNat (b.tiles0.length + b.tiles1.length)
  let dx := b.x - (n + GAME_BOARD_TILE_WIDTH)
  let dy := b.y - (n + GAME_BOARD_TILE_HEIGHT)
  let b := { b with
    tiles0 := b.tiles0.map (fun t => (t.set_x (t.x + dx)).set_y (t.y + dy)),
    tiles1 := b.tiles1.map (fun t => (t.set_x (t.x + dx)).set_y (t.y + dy)) }
  choices.foldl (fun b c => b.place_piece c w h) b

/-- `GameBoard.clear_selected_tile`.  Python dereferences
`self._tmx_tile_selected` unconditionally and would raise on `None`; every
call site guarantees a selected tile, so the `none` branch is unreachable
junk.  The tile's `selected` flag is dropped and its surface alpha restored
to normal. -/
def GameBoard.clear_selected_tile (b : GameBoard) : GameBoard :=
  match b.tmx_tile_selected with
  | none => b
  | some k =>
    match b.tiles1[k]? with
    | none => { b with tmx_tile_selected := none }
    | some t =>
      { b with
        tiles1 := b.tiles1.set k
          { t with selected := false, alpha := GAME_BOARD_TILE_ALPHA_NORMAL },
        tmx_tile_selected := none }

/-- `GameBoard.set_selected_tile` for the tile at position `k` of `tiles1`. -/
def GameBoard.set_selected_tile (b : GameBoard) (k : Nat) : GameBoard :=
  match b.tiles1[k]? with
  | none => { b with tmx_tile_selected := some k }
  | some t =>
    { b with
      tiles1 := b.tiles1.set k
        { t with selected := true, alpha := GAME_BOARD_TILE_ALPHA_SELECTED },
      tmx_tile_selected := some k }

/-- `GameBoard.clear_selected_piece`: `selected = False`, then
`self._piece_selected.blinking = False`, an attribute assignment that
dispatches to the class property `blinking`, i.e. whatever setter
`GamePiece.blinkingProperty` carries.  Call sites always guard against
`None`, so the junk branches are unreachable. -/
def GameBoard.clear_selected_piece (b : GameBoard) : GameBoard :=
  match b.piece_selected with
  | none => b
  | some pk =>
    match b.pieces[pk]? with
    | none => { b with piece_selected := none }
    | some p =>
      let p := { p with selected := false }
      let p := GamePiece.blinkingProperty.fset p (.vbool false)
      { b with pieces := b.pieces.set pk p, piece_selected := none }

/-- `GameBoard.set_selected_piece` for the piece at position `pk`. -/
def GameBoard.set_selected_piece (b : GameBoard) (pk : Nat) : GameBoard :=
  match b.pieces[pk]? with
  | none => { b with piece_selected := some pk }
  | some p =>
    { b with pieces := b.pieces.set pk { p with selected := true },
             piece_selected := some pk }

/-- `GameBoard.move_selected_piece(piece, tile)` with the piece at position
`pk` and the destination tile at position `tk` of `tiles1`, mirroring the
statement order: position the piece on the tile (through the `x`/`y`
setters), clear the old home tile's occupant (`piece.tile.piece = None`),
rewire the mutual references (`piece.tile = tile; tile.piece = piece`), then
`clear_selected_piece`. -/
def GameBoard.move_selected_piece (b : GameBoard) (pk tk : Nat) : GameBoard :=
  match b.tiles1[tk]?, b.pieces[pk]? with
  | some t, some p =>
    let p1 := (p.set_x t.x).set_y t.y
    let b := { b with pieces := b.pieces.set pk p1 }
    let b :=
      match p1.tile with
      | some ok =>
        match b.tiles1[ok]? with
        | some ot => { b with tiles1 := b.tiles1.set ok { ot with piece := none } }
        | none => b
      | none => b
    let b :=
      match b.pieces[pk]? with
      | some p2 => { b with pieces := b.pieces.set pk { p2 with tile := some tk } }
      | none => b
    let b :=
      match b.tiles1[tk]? with
      | some t2 => { b with tiles1 := b.tiles1.set tk { t2 with piece := some pk } }
      | none => b
    b.clear_selected_piece
  | _, _ => b

/-- `self._tmx_tile_selected.piece` guarded by
`self._tmx_tile_selected and ...`: the occupant of the highlighted tile,
`none` when no tile is highlighted. -/
def GameBoard.selTilePiece (b : GameBoard) : Option Nat :=
  match b.tmx_tile_selected with
  | none => none
  | some k =>
    match b.tiles1[k]? with
    | some t => t.piece
    | none => none

/-- One iteration of the tile-highlight loop of `GameBoard.tick`, processing
the layer-1 tile at position `k` (current state, since the loop mutates the
tiles it iterates over). -/
def GameBoard.highlightStep (mpos : Int × Int) (b : GameBoard) (k : Nat) :
    GameBoard :=
  match b.tiles1[k]? with
  | none => b
  | some t =>
    if t.rect.collidepoint mpos.1 mpos.2 then
      let b := if b.tmx_tile_selected.isSome then b.clear_selected_tile else b
      b.set_selected_tile k
    else
      if t.selected then b.clear_selected_tile else b

/-- The tile-highlight loop: `for tile in self._tmx_tile_data[1].values()`
in insertion order, i.e. over arena positions `0, 1, ...`. -/
def GameBoard.highlightPhase (mpos : Int × Int) (b : GameBoard) : GameBoard :=
  (List.range b.tiles1.length).foldl (GameBoard.highlightStep mpos) b

/-- The three selection/move branches of `GameBoard.tick`, in statement
order, each reading the state the previous one left:

    if pressed[0] and piece_selected and tile_selected and tile_selected.piece:
        clear_selected_piece(); set_selected_piece(tile_selected.piece)
    if not last_pressed[0] and pressed[0] and not piece_selected
            and tile_selected and tile_selected.piece:
        set_selected_piece(tile_selected.piece)
    if not last_pressed[0] and pressed[0] and piece_selected
            and tile_selected and not tile_selected.piece:
        move_selected_piece(piece_selected, tile_selected)
-/
def GameBoard.selReselectBranch (pressed0 : Bool) (b : GameBoard) :
    GameBoard :=
  match b.selTilePiece with
  | some pk =>
    if pressed0 = true ∧ b.piece_selected.isSome = true then
      (b.clear_selected_piece).set_selected_piece pk
    else b
  | none => b

def GameBoard.selNewBranch (pressed0 last0 : Bool) (b : GameBoard) :
    GameBoard :=
  match b.selTilePiece with
  | some pk =>
    if last0 = false ∧ pressed0 = true ∧ b.piece_selected = none then
      b.set_selected_piece pk
    else b
  | none => b

def GameBoard.selMoveBranch (pressed0 last0 : Bool) (b : GameBoard) :
    GameBoard :=
  match b.piece_selected with
  | none => b
  | some pk =>
    match b.tmx_tile_selected with
    | none => b
    | some tk =>
      if last0 = false ∧ pressed0 = true ∧
          (b.tiles1[tk]?).map GameTile.piece = some none then
        b.move_selected_piece pk tk
      else b

def GameBoard.selectMovePhase (pressed0 last0 : Bool) (b : GameBoard) :
    GameBoard :=
  ((b.selReselectBranch pressed0).selNewBranch pressed0 last0).selMoveBranch
    pressed0 last0

/-- `GameBoard.tick`: highlight refresh, then the selection/move branches,
then every piece's `tick` in insertion order. -/
def GameBoard.tick (b : GameBoard) (mpos : Int × Int) (pressed0 last0 : Bool) :
    GameBoard :=
  let b := b.highlightPhase mpos
  let b := b.selectMovePhase pressed0 last0
  { b with pieces := b.pieces.map GamePiece.tick }

/-! ### The driver (`Game`) and reachable states

`Game.tick` advances the mouse (shifting generations and taking the frame's
fresh sample) and then the board, which reads `mouse.pos`,
`mouse.pressed[0]` and `mouse.last_pressed[0]`.  A run starts from the state
`Game.setup` leaves (resource loading does not influence the board state
beyond the piece-surface size) and applies `Game.tick` once per frame with
arbitrary pointer input. -/

structure GameState where
  mouse : GameMouse
  board : GameBoard
  deriving Repr, DecidableEq

def Game.tick (s : GameState) (inp : MouseInput) : GameState :=
  let m := s.mouse.tick inp
  { mouse := m, board := s.board.tick m.pos m.pressed.1 m.last_pressed.1 }

/-- The state right after `Game.setup`: fresh mouse, board set up from the
map data and the random placement choices. -/
def startState (cells : List MapCell) (choices : List Nat) (bx bY w h : Int) :
    GameState :=
  { mouse := GameMouse.start
    board := (GameBoard.start bx bY).setup cells choices w h }

/-- States a run can be in at a frame boundary: the post-setup state and
everything `Game.tick` reaches from it under arbitrary pointer input. -/
inductive Reachable (s0 : GameState) : GameState → Prop where
  | refl : Reachable s0 s0
  | step : ∀ {s : GameState} (inp : MouseInput),
      Reachable s0 s → Reachable s0 (Game.tick s inp)

/-! ### Invariants

All quantifiers are bounded and every atom is decidable, so each invariant
can be evaluated on concrete states. -/

/-- A reference is either absent or within the arena. -/
def optInBounds (o : Option Nat) (n : Nat) : Bool :=
  match o with
  | none => true
  | some k => k < n

/-- Every occupied layer-1 tile's occupant exists and points back at the
tile (one half of the referential round-trip). -/
def tilePieceForward (b : GameBoard) : Prop :=
  ∀ k, (h : k < b.tiles1.length) → ∀ pk, (b.tiles1[k]).piece = some pk →
    (b.pieces[pk]?).map GamePiece.tile = some (some k)

/-- Every piece's home tile exists and holds the piece as occupant (the
other half of the round-trip). -/
def pieceTileBack (b : GameBoard) : Prop :=
  ∀ pk, (h : pk < b.pieces.length) → ∀ k, (b.pieces[pk]).tile = some k →
    (b.tiles1[k]?).map GameTile.piece = some (some pk)

/-- Every piece has a home-tile reference and it is a valid arena position. -/
def pieceTileSome (b : GameBoard) : Prop :=
  ∀ pk, (h : pk < b.pieces.length) →
    ((b.pieces[pk]).tile ≠ none) ∧
    optInBounds (b.pieces[pk]).tile b.tiles1.length = true

/-- A layer-1 tile is flagged selected exactly when it is the recorded
highlighted tile, and the record is a valid position. -/
def tileSelInv (b : GameBoard) : Prop :=
  (∀ k, (h : k < b.tiles1.length) →
    ((b.tiles1[k]).selected = true ↔ b.tmx_tile_selected = some k)) ∧
  optInBounds b.tmx_tile_selected b.tiles1.length = true

/-- A layer-1 tile's surface alpha tracks its selected flag. -/
def tileAlphaInv (b : GameBoard) : Prop :=
  ∀ k, (h : k < b.tiles1.length) →
    (b.tiles1[k]).alpha =
      (if (b.tiles1[k]).selected then GAME_BOARD_TILE_ALPHA_SELECTED
       else GAME_BOARD_TILE_ALPHA_NORMAL)

/-- A piece is flagged selected exactly when it is the recorded selected
piece, and the record is a valid position. -/
def pieceSelInv (b : GameBoard) : Prop :=
  (∀ pk, (h : pk < b.pieces.length) →
    ((b.pieces[pk]).selected = true ↔ b.piece_selected = some pk)) ∧
  optInBounds b.piece_selected b.pieces.length = true

/-- The currently selected piece (if any) is mutual with its home tile: the
home tile's occupant is that piece.  (A piece can only become selected
through the occupant reference of the highlighted tile, which re-establishes
this; while it stays selected no other branch rewires tiles.) -/
def selMutual (b : GameBoard) : Prop :=
  ∀ pk, (h : pk < b.pieces.length) → b.piece_selected = some pk →
    ∀ k, (hk : k < b.tiles1.length) → (b.pieces[pk]).tile = some k →
      (b.tiles1[k]).piece = some pk

/-- The invariants that hold in every run regardless of where the random
piece placement fell. -/
def boardInv (b : GameBoard) : Prop :=
  tilePieceForward b ∧ pieceTileSome b ∧ tileSelInv b ∧ tileAlphaInv b ∧
  pieceSelInv b ∧ selMutual b

instance (b : GameBoard) : Decidable (tilePieceForward b) := by
  unfold tilePieceForward; infer_instance

instance (b : GameBoard) : Decidable (pieceTileBack b) := by
  unfold pieceTileBack; infer_instance

instance (b : GameBoard) : Decidable (pieceTileSome b) := by
  unfold pieceTileSome; infer_instance

instance (b : GameBoard) : Decidable (tileSelInv b) := by
  unfold tileSelInv; infer_instance

instance (b : GameBoard) : Decidable (tileAlphaInv b) := by
  unfold tileAlphaInv; infer_instance

instance (b : GameBoard) : Decidable (pieceSelInv b) := by
  unfold pieceSelInv; infer_instance

instance (b : GameBoard) : Decidable (selMutual b) := by
  unfold selMutual; infer_instance

instance (b : GameBoard) : Decidable (boardInv b) := by
  unfold boardInv; infer_instance

/-! ### Proof-support definitions -/

/-- Everything of a tile except the two fields the highlight loop writes
(`selected` and the surface alpha). -/
def GameTile.core (t : GameTile) : Nat × Int × Int × Nat × Option Nat × Rect :=
  (t.index, t.x, t.y, t.layer, t.piece, t.rect)

/-- Everything of a piece except the fields selection and blinking write
(`selected`, `blinking`, alpha). -/
def GamePiece.core (p : GamePiece) :
    Nat × Int × Int × Nat × Option Nat × Rect × Option Nat :=
  (p.index, p.x, p.y, p.layer, p.piece, p.rect, p.tile)

/-- `b'` differs from `b` at most in the highlight data of layer-1 tiles
(selected flags, alphas) and in the recorded highlighted tile. -/
def tilesSelOnly (b b' : GameBoard) : Prop :=
  b'.x = b.x ∧ b'.y = b.y ∧ b'.pieces = b.pieces ∧
  b'.piece_selected = b.piece_selected ∧ b'.tiles0 = b.tiles0 ∧
  b'.tiles1.length = b.tiles1.length ∧
  (∀ j : Nat,
    (b'.tiles1[j]?).map GameTile.core = (b.tiles1[j]?).map GameTile.core)

/-- Whether the pointer is inside the layer-1 tile at position `k`. -/
def collideAt (b : GameBoard) (mpos : Int × Int) (k : Nat) : Bool :=
  match b.tiles1[k]? with
  | some t => t.rect.collidepoint mpos.1 mpos.2
  | none => false

/-- The highlighted-tile automaton: what one highlight-loop iteration does to
the recorded highlighted tile, as a pure function of the (loop-constant)
collision data. -/
def hlNext (collide : Nat → Bool) (a : Option Nat) (k : Nat) : Option Nat :=
  if collide k then some k else if a = some k then none else a

def hlRun (collide : Nat → Bool) (L : List Nat) (a : Option Nat) : Option Nat :=
  L.foldl (hlNext collide) a

/-! ### Concrete states used by witnesses and counterexamples

A 12-cell interactive row (enough tiles for the twelve `random.choice` calls
to land pairwise distinct) and a one-cell map on which all twelve placements
necessarily stack. -/

def exCells12 : List MapCell := (List.range 12).map (fun i => ⟨i, 0, 1, 32, 32⟩)

def exInit12 : GameState := startState exCells12 (List.range 12) 0 0 32 32

def exCellsDup : List MapCell := [⟨0, 0, 1, 32, 32⟩]

def exInitDup : GameState :=
  startState exCellsDup (List.replicate GAME_BOARD_NUM_PIECES 0) 0 0 32 32

/-- Press-edge over the first tile of `exInit12` (its rectangle after the
setup shift is `(-44, -44, 32, 32)`). -/
def exInpPress : MouseInput := ⟨(true, false, false), (-44, -44)⟩

/-- The state one tick later: piece 0 is selected, the mouse records the
button as held. -/
def exS1 : GameState := Game.tick exInit12 exInpPress

/-- Keeping the button held while gliding onto the second (occupied) tile. -/
def exInpSlide : MouseInput := ⟨(true, false, false), (-12, -44)⟩

/-- A small board used by per-tick witnesses: two interactive tiles side by
side, one piece sitting (selected) on the first, nothing highlighted. -/
def exTileA : GameTile :=
  { index := 1, x := 0, y := 0, layer := 1, selected := false,
    piece := some 0, rect := ⟨0, 0, 32, 32⟩,
    alpha := GAME_BOARD_TILE_ALPHA_NORMAL }

def exTileB : GameTile :=
  { index := 2, x := 32, y := 0, layer := 1, selected := false,
    piece := none, rect := ⟨32, 0, 32, 32⟩,
    alpha := GAME_BOARD_TILE_ALPHA_NORMAL }

def exPiece : GamePiece :=
  { index := 1, x := 0, y := 0, layer := 0, selected := true, piece := none,
    rect := ⟨0, 0, 30, 30⟩, alpha := GAME_BOARD_TILE_ALPHA_NORMAL,
    tile := some 0, blinking := false }

def exBoardSel : GameBoard :=
  { x := 0, y := 0, pieces := [exPiece], piece_selected := some 0,
    tiles0 := [], tiles1 := [exTileA, exTileB], tmx_tile_selected := none }

/-- The same board with no piece selected. -/
def exBoardUnsel : GameBoard :=
  { exBoardSel with
    pieces := [{ exPiece with selected := false }], piece_selected := none }

/-- `b'` differs from `b` at most in the selection data of pieces (selected
flags, blink flags, alphas) and in the recorded selected piece. -/
def piecesSelOnly (b b' : GameBoard) : Prop :=
  b'.x = b.x ∧ b'.y = b.y ∧ b'.tiles0 = b.tiles0 ∧ b'.tiles1 = b.tiles1 ∧
  b'.tmx_tile_selected = b.tmx_tile_selected ∧
  b'.pieces.length = b.pieces.length ∧
  (∀ j : Nat,
    (b'.pieces[j]?).map GamePiece.core = (b.pieces[j]?).map GamePiece.core)

/-- A board as the tile-placement part of `setup` leaves it: no pieces
anywhere, nothing selected, every layer-1 tile unoccupied, unselected and
fully opaque. -/
def pristineBoard (b : GameBoard) : Prop :=
  b.pieces = [] ∧ b.piece_selected = none ∧ b.tmx_tile_selected = none ∧
  ∀ k : Nat, (h : k < b.tiles1.length) →
    (b.tiles1[k]).piece = none ∧ (b.tiles1[k]).selected = false ∧
    (b.tiles1[k]).alpha = GAME_BOARD_TILE_ALPHA_NORMAL

/-- A one-image resource cache and its backing heap, as `GameResources.setup`
would leave them after registering `piece_black`. -/
def exHeap : ImageHeap := ⟨[[7, 7, 7]]⟩

def exRes : GameResources := ⟨[("piece_black", 0)], []⟩

/-! ### Theorems: the resource cache (claims C7 and C8) -/

/-- Claim C7: `get_image(name)` raises the `AssetNotFound` error naming the
asset exactly when `name` is unregistered; for a registered name it returns
a copy of the cached payload and leaves every pre-existing cell (in
particular the cached original) untouched. -/
theorem get_image_spec (h : ImageHeap) (r : GameResources) (name : String)
    (hwf : ∀ ref, r.lookupImage name = some ref → ref < h.cells.length) :
    (r.lookupImage name = none →
      GameResources.get_image h r name = .error (imageErrMsg name)) ∧
    (∀ e, GameResources.get_image h r name = .error e →
      r.lookupImage name = none ∧ e = imageErrMsg name) ∧
    (∀ ref, r.lookupImage name = some ref →
      ∃ h1 nr, GameResources.get_image h r name = .ok (h1, nr) ∧
        h1.read nr = h.read ref ∧
        (∀ j, j < h.cells.length → h1.read j = h.read j)) := by
  refine ⟨fun hn => ?_, fun e he => ?_, fun ref href => ?_⟩
  · simp [GameResources.get_image, hn]
  · unfold GameResources.get_image at he
    cases hl : r.lookupImage name with
    | none => simp [hl] at he; exact ⟨rfl, he.symm⟩
    | some ref =>
      rw [hl] at he
      cases hr : h.read ref <;> simp [hr] at he
  · have hlt : ref < h.cells.length := hwf ref href
    have hread : h.cells[ref]? = some (h.cells[ref]) :=
      List.getElem?_eq_getElem hlt
    refine ⟨⟨h.cells ++ [h.cells[ref]]⟩, h.cells.length, ?_, ?_, ?_⟩
    · simp [GameResources.get_image, href, ImageHeap.read, hread]
    · show (h.cells ++ [h.cells[ref]])[h.cells.length]? = h.cells[ref]?
      rw [List.getElem?_concat_length, hread]
    · intro j hj
      show (h.cells ++ [h.cells[ref]])[j]? = h.cells[j]?
      rw [List.getElem?_append_left hj]

/-- Witness for C7 at the concrete cache `exRes`/`exHeap`. -/
theorem get_image_spec_witness :
    (∀ ref, exRes.lookupImage "piece_black" = some ref →
      ref < exHeap.cells.length) ∧
    (∀ e, GameResources.get_image exHeap exRes "piece_black" = .error e →
      exRes.lookupImage "piece_black" = none ∧ e = imageErrMsg "piece_black") :=
  ⟨by decide, (get_image_spec exHeap exRes "piece_black" (by decide)).2.1⟩

/-- Claim C8: two `get_image` calls for the same registered name return two
distinct fresh references, both distinct from the cached original; writing
through the first reference changes it yet leaves the second copy and the
cached original untouched. -/
theorem get_image_copies_independent (h : ImageHeap) (r : GameResources)
    (name : String) (ref : Nat) (href : r.lookupImage name = some ref)
    (hlt : ref < h.cells.length) :
    ∃ h1 n1 h2 n2,
      GameResources.get_image h r name = .ok (h1, n1) ∧
      GameResources.get_image h1 r name = .ok (h2, n2) ∧
      n1 ≠ n2 ∧ n1 ≠ ref ∧ n2 ≠ ref ∧
      (∀ img, (h2.write n1 img).read n1 = some img ∧
        (h2.write n1 img).read n2 = h2.read n2 ∧
        (h2.write n1 img).read ref = h.read ref) := by
  set img0 := h.cells[ref] with himg0
  have hread : h.cells[ref]? = some img0 := List.getElem?_eq_getElem hlt
  have h1eq : GameResources.get_image h r name =
      .ok (⟨h.cells ++ [img0]⟩, h.cells.length) := by
    simp [GameResources.get_image, href, ImageHeap.read, hread]
  set c1 : List Image := h.cells ++ [img0] with hc1
  have hlt1 : ref < c1.length := by
    simpa [hc1] using Nat.lt_succ_of_lt hlt
  have hread1 : c1[ref]? = some img0 := by
    rw [hc1, List.getElem?_append_left hlt, hread]
  have h2eq : GameResources.get_image ⟨c1⟩ r name =
      .ok (⟨c1 ++ [img0]⟩, c1.length) := by
    simp only [GameResources.get_image, href, ImageHeap.read, hread1]
  refine ⟨⟨c1⟩, h.cells.length, ⟨c1 ++ [img0]⟩, c1.length, h1eq, h2eq,
    ?_, ?_, ?_, ?_⟩
  · simp [hc1]
  · exact Nat.ne_of_gt hlt
  · exact Nat.ne_of_gt (Nat.lt_of_lt_of_le hlt (by simp [hc1]))
  · intro img
    have hn1lt : h.cells.length < (c1 ++ [img0]).length := by
      simp [hc1]
    refine ⟨?_, ?_, ?_⟩
    · show ((c1 ++ [img0]).set h.cells.length img)[h.cells.length]? = some img
      exact List.getElem?_set_self (by simpa using hn1lt)
    · show ((c1 ++ [img0]).set h.cells.length img)[c1.length]? =
        (c1 ++ [img0])[c1.length]?
      exact List.getElem?_set_ne (by simp [hc1])
    · show ((c1 ++ [img0]).set h.cells.length img)[ref]? = h.cells[ref]?
      rw [List.getElem?_set_ne (Nat.ne_of_gt hlt)]
      rw [List.getElem?_append_left (by simpa [hc1] using hlt1), hread1, hread]

/-- Witness for C8 at the concrete cache. -/
theorem get_image_copies_independent_witness :
    exRes.lookupImage "piece_black" = some 0 ∧ 0 < exHeap.cells.length ∧
    (∃ h1 n1 h2 n2,
      GameResources.get_image exHeap exRes "piece_black" = .ok (h1, n1) ∧
      GameResources.get_image h1 exRes "piece_black" = .ok (h2, n2) ∧
      n1 ≠ n2 ∧ n1 ≠ 0 ∧ n2 ≠ 0 ∧
      (∀ img, (h2.write n1 img).read n1 = some img ∧
        (h2.write n1 img).read n2 = h2.read n2 ∧
        (h2.write n1 img).read 0 = exHeap.read 0)) :=
  ⟨by decide, by decide,
    get_image_copies_independent exHeap exRes "piece_black" 0
      (by decide) (by decide)⟩

/-! ### Theorems: the `blinking` property misdeclaration (claims C9, C10) -/

/-- Claim C10: reading a piece's public `blinking` property goes through the
getter the `@tile.setter` redeclaration installed, which is the tile getter:
it returns the home-tile reference, never the boolean blink flag. -/
theorem blinking_fget_returns_tile (p : GamePiece) :
    GamePiece.blinkingProperty.fget p = PyVal.vtile p.tile := rfl

/-- Counterexample to claim C9 as stated: assigning `True` to the `blinking`
property of a concrete piece whose blink flag is `False` DOES flip the
stored `_blinking` flag, so the flag is externally settable after all. -/
theorem blinking_fset_changes_flag_cex :
    exPiece.blinking = false ∧
    (GamePiece.blinkingProperty.fset exPiece (.vbool true)).blinking = true :=
  ⟨rfl, rfl⟩

/-- Claim C9 as amended: the `blinking` declaration is indeed decorated with
the wrong property (`@tile.setter`), but the casualty is the GETTER, not the
setter: assigning through the property does store the given boolean into the
blink flag, while reading the property yields the home-tile reference. -/
theorem blinking_property_misdeclared (p : GamePiece) (b : Bool) :
    (GamePiece.blinkingProperty.fset p (.vbool b)).blinking = b ∧
    GamePiece.blinkingProperty.fget p = PyVal.vtile p.tile :=
  ⟨rfl, rfl⟩

/-! ### Structural lemmas about the highlight loop -/

/-- Updating one position with an element of equal projection leaves the
projected view of the list unchanged. -/
theorem getElem?_map_set {α β : Type} (f : α → β) (l : List α) (k : Nat)
    (t t' : α) (hl : l[k]? = some t) (hc : f t' = f t) :
    ∀ j : Nat, ((l.set k t')[j]?).map f = (l[j]?).map f := by
  intro j
  by_cases hj : k = j
  · subst hj
    have hk : k < l.length := (List.getElem?_eq_some.mp hl).1
    rw [List.getElem?_set_self hk, hl]
    simpa using hc
  · rw [List.getElem?_set_ne hj]

theorem tilesSelOnly_refl (b : GameBoard) : tilesSelOnly b b :=
  ⟨rfl, rfl, rfl, rfl, rfl, rfl, fun _ => rfl⟩

theorem tilesSelOnly_trans {a b c : GameBoard} (h1 : tilesSelOnly a b)
    (h2 : tilesSelOnly b c) : tilesSelOnly a c := by
  obtain ⟨x1, y1, p1, ps1, t01, l1, c1⟩ := h1
  obtain ⟨x2, y2, p2, ps2, t02, l2, c2⟩ := h2
  exact ⟨x2.trans x1, y2.trans y1, p2.trans p1, ps2.trans ps1, t02.trans t01,
    l2.trans l1, fun j => (c2 j).trans (c1 j)⟩

theorem clear_selected_tile_selOnly (b : GameBoard) :
    tilesSelOnly b b.clear_selected_tile := by
  cases htmx : b.tmx_tile_selected with
  | none =>
    simp only [GameBoard.clear_selected_tile, htmx]
    exact tilesSelOnly_refl b
  | some k =>
    cases ht : b.tiles1[k]? with
    | none =>
      simp only [GameBoard.clear_selected_tile, htmx, ht]
      exact ⟨rfl, rfl, rfl, rfl, rfl, rfl, fun _ => rfl⟩
    | some t =>
      simp only [GameBoard.clear_selected_tile, htmx, ht]
      refine ⟨rfl, rfl, rfl, rfl, rfl, by simp, ?_⟩
      exact getElem?_map_set GameTile.core _ k t _ ht rfl

theorem set_selected_tile_selOnly (b : GameBoard) (k : Nat) :
    tilesSelOnly b (b.set_selected_tile k) := by
  cases ht : b.tiles1[k]? with
  | none =>
    simp only [GameBoard.set_selected_tile, ht]
    exact ⟨rfl, rfl, rfl, rfl, rfl, rfl, fun _ => rfl⟩
  | some t =>
    simp only [GameBoard.set_selected_tile, ht]
    refine ⟨rfl, rfl, rfl, rfl, rfl, by simp, ?_⟩
    exact getElem?_map_set GameTile.core _ k t _ ht rfl

theorem highlightStep_selOnly (mpos : Int × Int) (b : GameBoard) (k : Nat) :
    tilesSelOnly b (GameBoard.highlightStep mpos b k) := by
  cases ht : b.tiles1[k]? with
  | none =>
    simp only [GameBoard.highlightStep, ht]
    exact tilesSelOnly_refl b
  | some t =>
    simp only [GameBoard.highlightStep, ht]
    by_cases hc : t.rect.collidepoint mpos.1 mpos.2
    · simp only [hc, if_true]
      by_cases hs : b.tmx_tile_selected.isSome
      · simp only [hs, if_true]
        exact tilesSelOnly_trans (clear_selected_tile_selOnly b)
          (set_selected_tile_selOnly _ k)
      · simp only [hs, if_false]
        exact set_selected_tile_selOnly b k
    · simp only [hc, if_false]
      by_cases hs : t.selected
      · simp only [hs, if_true]
        exact clear_selected_tile_selOnly b
      · simp only [hs, if_false]
        exact tilesSelOnly_refl b

theorem foldl_highlightStep_selOnly (mpos : Int × Int) :
    ∀ (L : List Nat) (b : GameBoard),
      tilesSelOnly b (L.foldl (GameBoard.highlightStep mpos) b) := by
  intro L
  induction L with
  | nil => exact fun b => tilesSelOnly_refl b
  | cons k L ih =>
    intro b
    exact tilesSelOnly_trans (highlightStep_selOnly mpos b k)
      (ih (GameBoard.highlightStep mpos b k))

/-- The highlight phase only rewrites highlight data: pieces, the selected
piece, layer-0 tiles, board position, and every layer-1 tile's index,
position, layer, occupant and rectangle are untouched. -/
theorem highlightPhase_selOnly (mpos : Int × Int) (b : GameBoard) :
    tilesSelOnly b (b.highlightPhase mpos) :=
  foldl_highlightStep_selOnly mpos _ b

/-! ### Theorems: selection only changes on a press edge? (claim C3) -/

theorem set_selected_piece_piece_selected (b : GameBoard) (pk : Nat) :
    (b.set_selected_piece pk).piece_selected = some pk := by
  cases h : b.pieces[pk]? <;> simp [GameBoard.set_selected_piece, h]

/-- Counterexample to claim C3 as stated: a run in which a tick whose
previous input sample already had the button down (no released-to-pressed
transition) still switches the selected piece — the first `tick` branch
checks only the current button level.  Press over the first piece, then keep
the button held while gliding onto the second piece's tile: the selection
switches from piece 0 to piece 1. -/
theorem selection_switch_without_edge_cex :
    Reachable exInit12 (Game.tick exS1 exInpSlide) ∧
    exS1.mouse.pressed.1 = true ∧ exInpSlide.pressed.1 = true ∧
    exS1.board.piece_selected = some 0 ∧
    (Game.tick exS1 exInpSlide).board.piece_selected = some 1 :=
  ⟨Reachable.step exInpSlide (Reachable.step exInpPress Reachable.refl),
    by decide, by decide, by decide, by decide⟩

theorem selNewBranch_no_edge (pressed0 : Bool) (b : GameBoard) :
    b.selNewBranch pressed0 true = b := by
  cases hS : b.selTilePiece <;> simp [GameBoard.selNewBranch, hS]

theorem selMoveBranch_no_edge (pressed0 : Bool) (b : GameBoard) :
    b.selMoveBranch pressed0 true = b := by
  cases hA : b.piece_selected with
  | none => simp [GameBoard.selMoveBranch, hA]
  | some pk =>
    cases hT : b.tmx_tile_selected <;> simp [GameBoard.selMoveBranch, hA, hT]

theorem selReselectBranch_piece_selected (pressed0 : Bool) (b : GameBoard) :
    (b.selReselectBranch pressed0).piece_selected =
      if pressed0 = true ∧ b.piece_selected.isSome = true ∧
          b.selTilePiece.isSome = true then
        b.selTilePiece
      else b.piece_selected := by
  cases hS : b.selTilePiece with
  | none => simp [GameBoard.selReselectBranch, hS]
  | some pk =>
    simp only [GameBoard.selReselectBranch, hS]
    by_cases hc : pressed0 = true ∧ b.piece_selected.isSome = true
    · rw [if_pos hc, if_pos ⟨hc.1, hc.2, rfl⟩]
      exact set_selected_piece_piece_selected _ pk
    · rw [if_neg hc, if_neg (fun h => hc ⟨h.1, h.2.1⟩)]

/-- Claim C3 as amended: on a tick whose previous sample already had the
button pressed, the recorded selected piece is unchanged UNLESS the current
sample still has the button down, a piece is selected and the highlighted
tile holds a piece — in that one case (the level-triggered first branch)
selection switches to the highlighted tile's occupant. -/
theorem tick_no_edge_selected_piece (b : GameBoard) (mpos : Int × Int)
    (pressed0 : Bool) :
    (b.tick mpos pressed0 true).piece_selected =
      if pressed0 = true ∧ b.piece_selected.isSome = true ∧
          ((b.highlightPhase mpos).selTilePiece).isSome = true then
        (b.highlightPhase mpos).selTilePiece
      else b.piece_selected := by
  have hps : (b.highlightPhase mpos).piece_selected = b.piece_selected :=
    (highlightPhase_selOnly mpos b).2.2.2.1
  show (GameBoard.selectMovePhase pressed0 true
    (b.highlightPhase mpos)).piece_selected = _
  rw [GameBoard.selectMovePhase, selMoveBranch_no_edge, selNewBranch_no_edge,
    selReselectBranch_piece_selected, hps]

/-! ### The highlighted-tile automaton -/

theorem optInBounds_some {j n : Nat} (h : optInBounds (some j) n = true) :
    j < n := by
  simpa [optInBounds] using h

theorem hlRun_cons (c : Nat → Bool) (a : Option Nat) (k : Nat) (L : List Nat) :
    hlRun c (k :: L) a = hlRun c L (hlNext c a k) := rfl

/-- Where the automaton can end up: on a visited collider, or on the stale
initial value provided that was never visited. -/
theorem hlRun_eq_some (c : Nat → Bool) :
    ∀ (L : List Nat) (a : Option Nat) (k : Nat), hlRun c L a = some k →
      (c k = true ∧ k ∈ L) ∨ (a = some k ∧ k ∉ L) := by
  intro L
  induction L with
  | nil => exact fun a k h => Or.inr ⟨h, by simp⟩
  | cons i L ih =>
    intro a k h
    rw [hlRun_cons] at h
    rcases ih (hlNext c a i) k h with ⟨hc, hm⟩ | ⟨ha, hm⟩
    · exact Or.inl ⟨hc, List.mem_cons_of_mem i hm⟩
    · unfold hlNext at ha
      by_cases hci : c i = true
      · rw [if_pos hci] at ha
        obtain rfl : i = k := by simpa using ha
        exact Or.inl ⟨hci, List.mem_cons_self i L⟩
      · rw [if_neg hci] at ha
        by_cases hai : a = some i
        · rw [if_pos hai] at ha; exact absurd ha (by simp)
        · rw [if_neg hai] at ha
          refine Or.inr ⟨ha, ?_⟩
          intro hmem
          rcases List.mem_cons.mp hmem with rfl | hmem
          · exact hai ha
          · exact hm hmem

/-- The automaton never ends empty-handed when some visited position
collides, or when it starts on a collider. -/
theorem hlRun_isSome (c : Nat → Bool) :
    ∀ (L : List Nat) (a : Option Nat),
      ((∃ k ∈ L, c k = true) ∨ (∃ j, a = some j ∧ c j = true)) →
      (hlRun c L a).isSome = true := by
  intro L
  induction L with
  | nil =>
    intro a h
    rcases h with ⟨k, hk, _⟩ | ⟨j, ha, _⟩
    · simp at hk
    · simp [hlRun, ha]
  | cons i L ih =>
    intro a h
    rw [hlRun_cons]
    by_cases hci : c i = true
    · exact ih _ (Or.inr ⟨i, by simp [hlNext, hci], hci⟩)
    · refine ih _ ?_
      rcases h with ⟨k, hk, hck⟩ | ⟨j, ha, hcj⟩
      · rcases List.mem_cons.mp hk with rfl | hk
        · exact absurd hck hci
        · exact Or.inl ⟨k, hk, hck⟩
      · have hji : j ≠ i := fun h => hci (h ▸ hcj)
        refine Or.inr ⟨j, ?_, hcj⟩
        simp only [hlNext, if_neg hci, ha]
        rw [if_neg]
        simpa using hji

/-- Pointwise equality of collision data across a highlight-only change. -/
theorem collideAt_congr {b b' : GameBoard} (h : tilesSelOnly b b')
    (mpos : Int × Int) : ∀ j, collideAt b' mpos j = collideAt b mpos j := by
  intro j
  have hcore := h.2.2.2.2.2.2 j
  unfold collideAt
  cases h1 : b.tiles1[j]? with
  | none =>
    rw [h1] at hcore
    cases h2 : b'.tiles1[j]? with
    | none => rfl
    | some t' => rw [h2] at hcore; simp at hcore
  | some t =>
    rw [h1] at hcore
    cases h2 : b'.tiles1[j]? with
    | none => rw [h2] at hcore; simp at hcore
    | some t' =>
      rw [h2] at hcore
      have hcore' : GameTile.core t' = GameTile.core t := by
        simpa using hcore
      have hrect : t'.rect = t.rect :=
        congrArg (fun q => q.2.2.2.2.2) hcore'
      simp [hrect]

theorem clear_selected_tile_inv (b : GameBoard) (j : Nat)
    (htmx : b.tmx_tile_selected = some j) (hsel : tileSelInv b)
    (halpha : tileAlphaInv b) :
    tileSelInv b.clear_selected_tile ∧ tileAlphaInv b.clear_selected_tile ∧
    b.clear_selected_tile.tmx_tile_selected = none := by
  have hj : j < b.tiles1.length := optInBounds_some (htmx ▸ hsel.2)
  have ht : b.tiles1[j]? = some b.tiles1[j] := List.getElem?_eq_getElem hj
  simp only [GameBoard.clear_selected_tile, htmx, ht]
  refine ⟨⟨?_, by simp [optInBounds]⟩, ?_, trivial⟩
  · intro k hk
    have hk' : k < b.tiles1.length := by simpa using hk
    rw [List.getElem_set]
    by_cases hkj : j = k
    · subst hkj; simp
    · simp only [if_neg hkj]
      rw [hsel.1 k hk', htmx]
      simp [hkj]
  · intro k hk
    have hk' : k < b.tiles1.length := by simpa using hk
    rw [List.getElem_set]
    by_cases hkj : j = k
    · subst hkj; simp
    · simp only [if_neg hkj]
      exact halpha k hk'

theorem set_selected_tile_inv (b : GameBoard) (k : Nat)
    (hk : k < b.tiles1.length) (htmx : b.tmx_tile_selected = none)
    (hsel : tileSelInv b) (halpha : tileAlphaInv b) :
    tileSelInv (b.set_selected_tile k) ∧
    tileAlphaInv (b.set_selected_tile k) ∧
    (b.set_selected_tile k).tmx_tile_selected = some k := by
  have ht : b.tiles1[k]? = some b.tiles1[k] := List.getElem?_eq_getElem hk
  simp only [GameBoard.set_selected_tile, ht]
  have hnone : ∀ i, (h : i < b.tiles1.length) → (b.tiles1[i]).selected = false := by
    intro i hi
    have := hsel.1 i hi
    rw [htmx] at this
    simpa using fun hx => (this.mp hx)
  refine ⟨⟨?_, by simpa [optInBounds] using hk⟩, ?_, trivial⟩
  · intro i hi
    have hi' : i < b.tiles1.length := by simpa using hi
    rw [List.getElem_set]
    by_cases hik : k = i
    · subst hik; simp
    · simp only [if_neg hik]
      rw [hnone i hi']
      simp [hik]
  · intro i hi
    have hi' : i < b.tiles1.length := by simpa using hi
    rw [List.getElem_set]
    by_cases hik : k = i
    · subst hik; simp
    · simp only [if_neg hik]
      exact halpha i hi'

theorem highlightStep_inv (mpos : Int × Int) (b : GameBoard) (k : Nat)
    (hk : k < b.tiles1.length) (hsel : tileSelInv b)
    (halpha : tileAlphaInv b) :
    tileSelInv (GameBoard.highlightStep mpos b k) ∧
    tileAlphaInv (GameBoard.highlightStep mpos b k) ∧
    (GameBoard.highlightStep mpos b k).tmx_tile_selected =
      hlNext (collideAt b mpos) b.tmx_tile_selected k := by
  have ht : b.tiles1[k]? = some b.tiles1[k] := List.getElem?_eq_getElem hk
  have hcoll : collideAt b mpos k =
      (b.tiles1[k]).rect.collidepoint mpos.1 mpos.2 := by
    simp [collideAt, ht]
  by_cases hc : (b.tiles1[k]).rect.collidepoint mpos.1 mpos.2 = true
  · simp only [GameBoard.highlightStep, ht, hc, if_true]
    cases htmx : b.tmx_tile_selected with
    | none =>
      simp only [htmx, Option.isSome_none, Bool.false_eq_true, if_false]
      obtain ⟨h1, h2, h3⟩ := set_selected_tile_inv b k hk htmx hsel halpha
      refine ⟨h1, h2, ?_⟩
      rw [h3, hlNext, hcoll, hc]
      simp
    | some j =>
      simp only [htmx, Option.isSome_some, if_true]
      obtain ⟨hs1, ha1, htx1⟩ := clear_selected_tile_inv b j htmx hsel halpha
      have hlen : b.clear_selected_tile.tiles1.length = b.tiles1.length :=
        (clear_selected_tile_selOnly b).2.2.2.2.2.1
      obtain ⟨h1, h2, h3⟩ :=
        set_selected_tile_inv _ k (hlen ▸ hk) htx1 hs1 ha1
      refine ⟨h1, h2, ?_⟩
      rw [h3, hlNext, hcoll, hc]
      simp
  · have hc' : (b.tiles1[k]).rect.collidepoint mpos.1 mpos.2 = false :=
      Bool.not_eq_true _ ▸ eq_false_of_ne_true hc
    simp only [GameBoard.highlightStep, ht, hc', Bool.false_eq_true, if_false]
    by_cases hs : (b.tiles1[k]).selected = true
    · have htmx : b.tmx_tile_selected = some k := (hsel.1 k hk).mp hs
      simp only [hs, if_true]
      obtain ⟨hs1, ha1, htx1⟩ := clear_selected_tile_inv b k htmx hsel halpha
      refine ⟨hs1, ha1, ?_⟩
      rw [htx1, hlNext, hcoll, hc']
      simp [htmx]
    · have hs' : (b.tiles1[k]).selected = false :=
        Bool.not_eq_true _ ▸ eq_false_of_ne_true hs
      have htmx : b.tmx_tile_selected ≠ some k := fun hx =>
        hs ((hsel.1 k hk).mpr hx)
      simp only [hs', Bool.false_eq_true, if_false]
      refine ⟨hsel, halpha, ?_⟩
      rw [hlNext, hcoll, hc']
      simp [htmx]

theorem foldl_highlightStep_inv (mpos : Int × Int) :
    ∀ (L : List Nat) (b : GameBoard),
      (∀ k ∈ L, k < b.tiles1.length) → tileSelInv b → tileAlphaInv b →
      tileSelInv (L.foldl (GameBoard.highlightStep mpos) b) ∧
      tileAlphaInv (L.foldl (GameBoard.highlightStep mpos) b) ∧
      (L.foldl (GameBoard.highlightStep mpos) b).tmx_tile_selected =
        hlRun (collideAt b mpos) L b.tmx_tile_selected := by
  intro L
  induction L with
  | nil => exact fun b _ hsel halpha => ⟨hsel, halpha, rfl⟩
  | cons k L ih =>
    intro b hL hsel halpha
    have hk : k < b.tiles1.length := hL k (List.mem_cons_self k L)
    obtain ⟨h1, h2, h3⟩ := highlightStep_inv mpos b k hk hsel halpha
    have hso := highlightStep_selOnly mpos b k
    have hlen : (GameBoard.highlightStep mpos b k).tiles1.length =
        b.tiles1.length := hso.2.2.2.2.2.1
    have hL' : ∀ j ∈ L, j < (GameBoard.highlightStep mpos b k).tiles1.length :=
      fun j hj => hlen ▸ hL j (List.mem_cons_of_mem k hj)
    obtain ⟨g1, g2, g3⟩ := ih (GameBoard.highlightStep mpos b k) hL' h1 h2
    refine ⟨g1, g2, ?_⟩
    show (L.foldl (GameBoard.highlightStep mpos)
      (GameBoard.highlightStep mpos b k)).tmx_tile_selected = _
    rw [g3, h3, hlRun_cons]
    have hcc : collideAt (GameBoard.highlightStep mpos b k) mpos =
        collideAt b mpos := funext (collideAt_congr hso mpos)
    rw [hcc]

/-- After the highlight loop the tile-selection invariants hold again and the
recorded highlighted tile is the automaton's verdict over the whole arena. -/
theorem highlightPhase_inv (mpos : Int × Int) (b : GameBoard)
    (hsel : tileSelInv b) (halpha : tileAlphaInv b) :
    tileSelInv (b.highlightPhase mpos) ∧
    tileAlphaInv (b.highlightPhase mpos) ∧
    (b.highlightPhase mpos).tmx_tile_selected =
      hlRun (collideAt b mpos) (List.range b.tiles1.length)
        b.tmx_tile_selected :=
  foldl_highlightStep_inv mpos _ b (fun k hk => List.mem_range.mp hk) hsel
    halpha

/-! ### Theorems: tile highlighting (claim C5) -/

/-- Claim C5: after the highlight phase of a board tick (from any state
satisfying the tile-selection invariants), (1) a layer-1 tile is flagged
selected exactly when it is the recorded highlighted tile — so at most one
is flagged; (2) the recorded highlighted tile lies under the pointer;
(3) if any layer-1 tile lies under the pointer, some tile is highlighted;
(4) a previously highlighted tile that is no longer under the pointer has
its flag cleared and its alpha restored to the normal level; and (5) when
tile rectangles are pairwise non-overlapping, THE tile under the pointer is
the highlighted one. -/
theorem highlight_phase_unique_selected (b : GameBoard) (mpos : Int × Int)
    (hsel : tileSelInv b) (halpha : tileAlphaInv b) :
    (∀ k, (h : k < (b.highlightPhase mpos).tiles1.length) →
      (((b.highlightPhase mpos).tiles1[k]).selected = true ↔
        (b.highlightPhase mpos).tmx_tile_selected = some k)) ∧
    (∀ k, (b.highlightPhase mpos).tmx_tile_selected = some k →
      k < b.tiles1.length ∧ collideAt b mpos k = true) ∧
    ((∃ k, k < b.tiles1.length ∧ collideAt b mpos k = true) →
      ((b.highlightPhase mpos).tmx_tile_selected).isSome = true) ∧
    (∀ j, b.tmx_tile_selected = some j → collideAt b mpos j = false →
      ∀ (h : j < (b.highlightPhase mpos).tiles1.length),
        ((b.highlightPhase mpos).tiles1[j]).selected = false ∧
        ((b.highlightPhase mpos).tiles1[j]).alpha =
          GAME_BOARD_TILE_ALPHA_NORMAL) ∧
    ((∀ k1 k2, k1 < b.tiles1.length → k2 < b.tiles1.length → k1 ≠ k2 →
        ¬(collideAt b mpos k1 = true ∧ collideAt b mpos k2 = true)) →
      ∀ k, k < b.tiles1.length → collideAt b mpos k = true →
        (b.highlightPhase mpos).tmx_tile_selected = some k) := by
  obtain ⟨hs, ha, htx⟩ := highlightPhase_inv mpos b hsel halpha
  have himg : ∀ k, (b.highlightPhase mpos).tmx_tile_selected = some k →
      k < b.tiles1.length ∧ collideAt b mpos k = true := by
    intro k hk
    rw [htx] at hk
    rcases hlRun_eq_some _ _ _ _ hk with ⟨hc, hm⟩ | ⟨ha0, hm⟩
    · exact ⟨List.mem_range.mp hm, hc⟩
    · exact absurd (List.mem_range.mpr (optInBounds_some (ha0 ▸ hsel.2))) hm
  refine ⟨hs.1, himg, ?_, ?_, ?_⟩
  · rintro ⟨k, hk, hc⟩
    rw [htx]
    exact hlRun_isSome _ _ _ (Or.inl ⟨k, List.mem_range.mpr hk, hc⟩)
  · intro j hj hcj h
    have hne : (b.highlightPhase mpos).tmx_tile_selected ≠ some j := by
      intro hx
      rw [(himg j hx).2] at hcj
      exact absurd hcj (by simp)
    refine ⟨?_, ?_⟩
    · rw [← Bool.not_eq_true]
      intro hx
      exact hne ((hs.1 j h).mp hx)
    · have hax := ha j h
      have hsx : ((b.highlightPhase mpos).tiles1[j]).selected = false := by
        rw [← Bool.not_eq_true]
        intro hx
        exact hne ((hs.1 j h).mp hx)
      rw [hax, hsx]
      simp
  · intro hdis k hk hc
    have hsome : (((b.highlightPhase mpos)).tmx_tile_selected).isSome = true := by
      rw [htx]
      exact hlRun_isSome _ _ _ (Or.inl ⟨k, List.mem_range.mpr hk, hc⟩)
    cases hx : (b.highlightPhase mpos).tmx_tile_selected with
    | none => rw [hx] at hsome; simp at hsome
    | some k2 =>
      obtain ⟨hk2, hc2⟩ := himg k2 hx
      by_cases hkk : k = k2
      · rw [hkk]
      · exact absurd ⟨hc, hc2⟩ (hdis k k2 hk hk2 hkk)

/-- Witness for C5 on the concrete two-tile board with the pointer over the
second tile. -/
theorem highlight_phase_unique_selected_witness :
    tileSelInv exBoardSel ∧ tileAlphaInv exBoardSel ∧
    (∀ k, (exBoardSel.highlightPhase (40, 5)).tmx_tile_selected = some k →
      k < exBoardSel.tiles1.length ∧ collideAt exBoardSel (40, 5) k = true) :=
  ⟨by decide, by decide,
    (highlight_phase_unique_selected exBoardSel (40, 5) (by decide)
      (by decide)).2.1⟩

/-! ### Transport of the invariants along highlight-only and selection-only
changes -/

theorem tiles_piece_view {b b' : GameBoard} (hso : tilesSelOnly b b')
    (j : Nat) :
    (b'.tiles1[j]?).map GameTile.piece = (b.tiles1[j]?).map GameTile.piece := by
  have hcore := hso.2.2.2.2.2.2 j
  cases h1 : b.tiles1[j]? with
  | none =>
    rw [h1] at hcore
    cases h2 : b'.tiles1[j]? with
    | none => rfl
    | some t' => rw [h2] at hcore; simp at hcore
  | some t =>
    rw [h1] at hcore
    cases h2 : b'.tiles1[j]? with
    | none => rw [h2] at hcore; simp at hcore
    | some t' =>
      rw [h2] at hcore
      have hcore' : GameTile.core t' = GameTile.core t := by simpa using hcore
      have : t'.piece = t.piece :=
        congrArg (fun q => q.2.2.2.2.1) hcore'
      simp [this]

theorem pieces_tile_view {b b' : GameBoard} (hso : piecesSelOnly b b')
    (j : Nat) :
    (b'.pieces[j]?).map GamePiece.tile = (b.pieces[j]?).map GamePiece.tile := by
  have hcore := hso.2.2.2.2.2.2 j
  cases h1 : b.pieces[j]? with
  | none =>
    rw [h1] at hcore
    cases h2 : b'.pieces[j]? with
    | none => rfl
    | some t' => rw [h2] at hcore; simp at hcore
  | some t =>
    rw [h1] at hcore
    cases h2 : b'.pieces[j]? with
    | none => rw [h2] at hcore; simp at hcore
    | some t' =>
      rw [h2] at hcore
      have hcore' : GamePiece.core t' = GamePiece.core t := by simpa using hcore
      have : t'.tile = t.tile :=
        congrArg (fun q => q.2.2.2.2.2.2) hcore'
      simp [this]

theorem getElem_of_getElem? {α : Type} {l : List α} {k : Nat} {a : α}
    (h : l[k]? = some a) (hk : k < l.length) : l[k] = a := by
  rw [List.getElem?_eq_getElem hk] at h
  exact Option.some.inj h

theorem tilesSelOnly_tilePieceForward {b b' : GameBoard}
    (hso : tilesSelOnly b b') (h : tilePieceForward b) :
    tilePieceForward b' := by
  intro k hk pk hpc
  have hlen : b'.tiles1.length = b.tiles1.length := hso.2.2.2.2.2.1
  have hk0 : k < b.tiles1.length := hlen ▸ hk
  have hview := tiles_piece_view hso k
  rw [List.getElem?_eq_getElem hk, List.getElem?_eq_getElem hk0] at hview
  have hpiece : (b'.tiles1[k]).piece = (b.tiles1[k]).piece := by
    simpa using hview
  rw [hpiece] at hpc
  rw [hso.2.2.1]
  exact h k hk0 pk hpc

theorem tilesSelOnly_pieceTileBack {b b' : GameBoard}
    (hso : tilesSelOnly b b') (h : pieceTileBack b) : pieceTileBack b' := by
  intro pk hpk k hkt
  have hpk0 : pk < b.pieces.length := by rw [← hso.2.2.1]; exact hpk
  have hkt0 : (b.pieces[pk]).tile = some k := by
    have : b'.pieces[pk] = b.pieces[pk] := by
      have := hso.2.2.1
      exact List.getElem_of_eq this hpk
    rw [← this]; exact hkt
  rw [tiles_piece_view hso k]
  exact h pk hpk0 k hkt0

theorem tilesSelOnly_pieceTileSome {b b' : GameBoard}
    (hso : tilesSelOnly b b') (h : pieceTileSome b) : pieceTileSome b' := by
  intro pk hpk
  have hpk0 : pk < b.pieces.length := by rw [← hso.2.2.1]; exact hpk
  have hpe : b'.pieces[pk] = b.pieces[pk] :=
    List.getElem_of_eq hso.2.2.1 hpk
  rw [hpe, hso.2.2.2.2.2.1]
  exact h pk hpk0

theorem tilesSelOnly_pieceSelInv {b b' : GameBoard}
    (hso : tilesSelOnly b b') (h : pieceSelInv b) : pieceSelInv b' := by
  constructor
  · intro pk hpk
    have hpk0 : pk < b.pieces.length := by rw [← hso.2.2.1]; exact hpk
    have hpe : b'.pieces[pk] = b.pieces[pk] :=
      List.getElem_of_eq hso.2.2.1 hpk
    rw [hpe, hso.2.2.2.1]
    exact h.1 pk hpk0
  · rw [hso.2.2.2.1, hso.2.2.1]
    exact h.2

theorem tilesSelOnly_selMutual {b b' : GameBoard}
    (hso : tilesSelOnly b b') (h : selMutual b) : selMutual b' := by
  intro pk hpk hps k hk hkt
  have hpk0 : pk < b.pieces.length := by rw [← hso.2.2.1]; exact hpk
  have hlen : b'.tiles1.length = b.tiles1.length := hso.2.2.2.2.2.1
  have hk0 : k < b.tiles1.length := hlen ▸ hk
  have hpe : b'.pieces[pk] = b.pieces[pk] :=
    List.getElem_of_eq hso.2.2.1 hpk
  have hres := h pk hpk0 (by rw [← hso.2.2.2.1]; exact hps) k hk0
    (by rw [← hpe]; exact hkt)
  have hview := tiles_piece_view hso k
  rw [List.getElem?_eq_getElem hk, List.getElem?_eq_getElem hk0] at hview
  have hpiece : (b'.tiles1[k]).piece = (b.tiles1[k]).piece := by
    simpa using hview
  rw [hpiece]
  exact hres

theorem piecesSelOnly_tilePieceForward {b b' : GameBoard}
    (hso : piecesSelOnly b b') (h : tilePieceForward b) :
    tilePieceForward b' := by
  intro k hk pk hpc
  have htiles : b'.tiles1 = b.tiles1 := hso.2.2.2.1
  have hk0 : k < b.tiles1.length := by rw [← htiles]; exact hk
  have hte : b'.tiles1[k] = b.tiles1[k] := List.getElem_of_eq htiles hk
  rw [hte] at hpc
  rw [pieces_tile_view hso pk]
  exact h k hk0 pk hpc

theorem piecesSelOnly_pieceTileBack {b b' : GameBoard}
    (hso : piecesSelOnly b b') (h : pieceTileBack b) : pieceTileBack b' := by
  intro pk hpk k hkt
  have hlen : b'.pieces.length = b.pieces.length := hso.2.2.2.2.2.1
  have hpk0 : pk < b.pieces.length := hlen ▸ hpk
  have hview := pieces_tile_view hso pk
  rw [List.getElem?_eq_getElem hpk, List.getElem?_eq_getElem hpk0] at hview
  have htile : (b'.pieces[pk]).tile = (b.pieces[pk]).tile := by
    simpa using hview
  rw [htile] at hkt
  rw [hso.2.2.2.1]
  exact h pk hpk0 k hkt

theorem piecesSelOnly_pieceTileSome {b b' : GameBoard}
    (hso : piecesSelOnly b b') (h : pieceTileSome b) : pieceTileSome b' := by
  intro pk hpk
  have hlen : b'.pieces.length = b.pieces.length := hso.2.2.2.2.2.1
  have hpk0 : pk < b.pieces.length := hlen ▸ hpk
  have hview := pieces_tile_view hso pk
  rw [List.getElem?_eq_getElem hpk, List.getElem?_eq_getElem hpk0] at hview
  have htile : (b'.pieces[pk]).tile = (b.pieces[pk]).tile := by
    simpa using hview
  rw [htile, hso.2.2.2.1]
  exact h pk hpk0

theorem piecesSelOnly_tileSelInv {b b' : GameBoard}
    (hso : piecesSelOnly b b') (h : tileSelInv b) : tileSelInv b' := by
  constructor
  · intro k hk
    have htiles : b'.tiles1 = b.tiles1 := hso.2.2.2.1
    have hk0 : k < b.tiles1.length := by rw [← htiles]; exact hk
    have hte : b'.tiles1[k] = b.tiles1[k] := List.getElem_of_eq htiles hk
    rw [hte, hso.2.2.2.2.1]
    exact h.1 k hk0
  · rw [hso.2.2.2.2.1, hso.2.2.2.1]
    exact h.2

theorem piecesSelOnly_tileAlphaInv {b b' : GameBoard}
    (hso : piecesSelOnly b b') (h : tileAlphaInv b) : tileAlphaInv b' := by
  intro k hk
  have htiles : b'.tiles1 = b.tiles1 := hso.2.2.2.1
  have hk0 : k < b.tiles1.length := by rw [← htiles]; exact hk
  have hte : b'.tiles1[k] = b.tiles1[k] := List.getElem_of_eq htiles hk
  rw [hte]
  exact h k hk0

/-! ### The selection branches: structure and invariants -/

theorem piecesSelOnly_refl (b : GameBoard) : piecesSelOnly b b :=
  ⟨rfl, rfl, rfl, rfl, rfl, rfl, fun _ => rfl⟩

theorem piecesSelOnly_trans {a b c : GameBoard} (h1 : piecesSelOnly a b)
    (h2 : piecesSelOnly b c) : piecesSelOnly a c := by
  obtain ⟨x1, y1, t01, t11, tx1, l1, c1⟩ := h1
  obtain ⟨x2, y2, t02, t12, tx2, l2, c2⟩ := h2
  exact ⟨x2.trans x1, y2.trans y1, t02.trans t01, t12.trans t11,
    tx2.trans tx1, l2.trans l1, fun j => (c2 j).trans (c1 j)⟩

theorem clear_selected_piece_selOnly (b : GameBoard) :
    piecesSelOnly b b.clear_selected_piece := by
  cases hps : b.piece_selected with
  | none =>
    simp only [GameBoard.clear_selected_piece, hps]
    exact piecesSelOnly_refl b
  | some pk =>
    cases hp : b.pieces[pk]? with
    | none =>
      simp only [GameBoard.clear_selected_piece, hps, hp]
      exact ⟨rfl, rfl, rfl, rfl, rfl, rfl, fun _ => rfl⟩
    | some p =>
      simp only [GameBoard.clear_selected_piece, hps, hp]
      refine ⟨rfl, rfl, rfl, rfl, rfl, by simp, ?_⟩
      exact getElem?_map_set GamePiece.core _ pk p _ hp rfl

theorem set_selected_piece_selOnly (b : GameBoard) (pk : Nat) :
    piecesSelOnly b (b.set_selected_piece pk) := by
  cases hp : b.pieces[pk]? with
  | none =>
    simp only [GameBoard.set_selected_piece, hp]
    exact ⟨rfl, rfl, rfl, rfl, rfl, rfl, fun _ => rfl⟩
  | some p =>
    simp only [GameBoard.set_selected_piece, hp]
    refine ⟨rfl, rfl, rfl, rfl, rfl, by simp, ?_⟩
    exact getElem?_map_set GamePiece.core _ pk p _ hp rfl

theorem blinking_fset_eq (p : GamePiece) (v : Bool) :
    GamePiece.blinkingProperty.fset p (.vbool v) = { p with blinking := v } :=
  rfl

theorem clear_selected_piece_unsel (b : GameBoard) (h : pieceSelInv b) :
    (∀ j, (hj : j < b.clear_selected_piece.pieces.length) →
      (b.clear_selected_piece.pieces[j]).selected = false) ∧
    b.clear_selected_piece.piece_selected = none ∧
    b.clear_selected_piece.pieces.length = b.pieces.length := by
  cases hps : b.piece_selected with
  | none =>
    simp only [GameBoard.clear_selected_piece, hps]
    refine ⟨?_, trivial, trivial⟩
    intro j hj
    have := (h.1 j hj)
    rw [hps] at this
    rw [← Bool.not_eq_true]
    intro hx
    exact absurd (this.mp hx) (by simp)
  | some pk =>
    have hpk : pk < b.pieces.length := optInBounds_some (hps ▸ h.2)
    have hp : b.pieces[pk]? = some b.pieces[pk] := List.getElem?_eq_getElem hpk
    simp only [GameBoard.clear_selected_piece, hps, hp, blinking_fset_eq]
    refine ⟨?_, trivial, List.length_set b.pieces pk _⟩
    intro j hj
    have hj' : j < b.pieces.length := by simpa using hj
    rw [List.getElem_set]
    by_cases hjk : pk = j
    · subst hjk; simp
    · simp only [if_neg hjk]
      have := h.1 j hj'
      rw [hps] at this
      rw [← Bool.not_eq_true]
      intro hx
      have hpj : some pk = some j := this.mp hx
      exact hjk (Option.some.inj hpj)

theorem set_selected_piece_pieceSelInv (b : GameBoard) (pk : Nat)
    (hpk : pk < b.pieces.length)
    (hall : ∀ j, (hj : j < b.pieces.length) → (b.pieces[j]).selected = false) :
    pieceSelInv (b.set_selected_piece pk) := by
  have hp : b.pieces[pk]? = some b.pieces[pk] := List.getElem?_eq_getElem hpk
  simp only [GameBoard.set_selected_piece, hp]
  constructor
  · intro j hj
    have hj' : j < b.pieces.length := by simpa using hj
    rw [List.getElem_set]
    by_cases hjk : pk = j
    · subst hjk; simp
    · simp only [if_neg hjk]
      rw [hall j hj']
      constructor
      · intro hx; exact absurd hx (by simp)
      · intro hx
        exact absurd (Option.some.inj hx) hjk
  · simpa [optInBounds] using hpk

theorem set_selected_piece_selMutual (b : GameBoard) (pk tk : Nat)
    (htk : tk < b.tiles1.length) (hocc : (b.tiles1[tk]).piece = some pk)
    (hfwd : tilePieceForward b) : selMutual (b.set_selected_piece pk) := by
  have hmut := hfwd tk htk pk hocc
  have hso := set_selected_piece_selOnly b pk
  intro pj hpj hps k hk hkt
  have hpp : some pk = some pj := by
    rw [← set_selected_piece_piece_selected b pk]; exact hps
  have hps' : pk = pj := Option.some.inj hpp
  subst hps'
  have hlenp : (b.set_selected_piece pk).pieces.length = b.pieces.length :=
    hso.2.2.2.2.2.1
  have hpj0 : pk < b.pieces.length := hlenp ▸ hpj
  have hview := pieces_tile_view hso pk
  rw [List.getElem?_eq_getElem hpj, List.getElem?_eq_getElem hpj0] at hview
  have htile : ((b.set_selected_piece pk).pieces[pk]).tile =
      (b.pieces[pk]).tile := by simpa using hview
  rw [htile] at hkt
  have hbp : b.pieces[pk]? = some (b.pieces[pk]) :=
    List.getElem?_eq_getElem hpj0
  rw [hbp] at hmut
  have htk2 : (b.pieces[pk]).tile = some tk := by simpa using hmut
  have hktk : k = tk := by
    rw [hkt] at htk2
    exact Option.some.inj htk2
  subst hktk
  have htiles : (b.set_selected_piece pk).tiles1 = b.tiles1 := hso.2.2.2.1
  have hte : (b.set_selected_piece pk).tiles1[k] = b.tiles1[k] :=
    List.getElem_of_eq htiles hk
  rw [hte]
  exact hocc

theorem selTilePiece_spec (b : GameBoard) (pk : Nat)
    (h : b.selTilePiece = some pk) (hselt : tileSelInv b) :
    ∃ tk, b.tmx_tile_selected = some tk ∧
      ∃ (htk : tk < b.tiles1.length), (b.tiles1[tk]).piece = some pk := by
  cases htmx : b.tmx_tile_selected with
  | none => simp [GameBoard.selTilePiece, htmx] at h
  | some tk =>
    have htk : tk < b.tiles1.length := optInBounds_some (htmx ▸ hselt.2)
    have ht : b.tiles1[tk]? = some (b.tiles1[tk]) := List.getElem?_eq_getElem htk
    simp only [GameBoard.selTilePiece, htmx, ht] at h
    exact ⟨tk, rfl, htk, h⟩

theorem forward_pk_bound (b : GameBoard) (tk pk : Nat)
    (htk : tk < b.tiles1.length)
    (hocc : (b.tiles1[tk]).piece = some pk)
    (hfwd : tilePieceForward b) : pk < b.pieces.length := by
  have := hfwd tk htk pk hocc
  cases hx : b.pieces[pk]? with
  | none => rw [hx] at this; simp at this
  | some p => exact (List.getElem?_eq_some.mp hx).1

theorem selReselectBranch_inv (pressed0 : Bool) (b : GameBoard)
    (hinv : boardInv b) :
    boardInv (b.selReselectBranch pressed0) ∧
    piecesSelOnly b (b.selReselectBranch pressed0) := by
  obtain ⟨hfwd, hsome, hselt, halpha, hpsel, hmut⟩ := hinv
  cases hS : b.selTilePiece with
  | none =>
    simp only [GameBoard.selReselectBranch, hS]
    exact ⟨⟨hfwd, hsome, hselt, halpha, hpsel, hmut⟩, piecesSelOnly_refl b⟩
  | some pk =>
    simp only [GameBoard.selReselectBranch, hS]
    by_cases hc : pressed0 = true ∧ b.piece_selected.isSome = true
    · rw [if_pos hc]
      obtain ⟨tk, htmx, htk, hocc⟩ := selTilePiece_spec b pk hS hselt
      have hpkb : pk < b.pieces.length := forward_pk_bound b tk pk htk hocc hfwd
      have hso1 : piecesSelOnly b b.clear_selected_piece :=
        clear_selected_piece_selOnly b
      have hso2 : piecesSelOnly b.clear_selected_piece
          (b.clear_selected_piece.set_selected_piece pk) :=
        set_selected_piece_selOnly _ pk
      have hso : piecesSelOnly b
          (b.clear_selected_piece.set_selected_piece pk) :=
        piecesSelOnly_trans hso1 hso2
      have hunsel := clear_selected_piece_unsel b hpsel
      have htiles1 : b.clear_selected_piece.tiles1 = b.tiles1 := hso1.2.2.2.1
      have htkc : tk < b.clear_selected_piece.tiles1.length := by
        rw [htiles1]; exact htk
      have hoccc : (b.clear_selected_piece.tiles1[tk]).piece = some pk := by
        rw [List.getElem_of_eq htiles1 htkc]; exact hocc
      refine ⟨⟨piecesSelOnly_tilePieceForward hso hfwd,
        piecesSelOnly_pieceTileSome hso hsome,
        piecesSelOnly_tileSelInv hso hselt,
        piecesSelOnly_tileAlphaInv hso halpha,
        set_selected_piece_pieceSelInv _ pk (by rw [hunsel.2.2]; exact hpkb)
          hunsel.1,
        set_selected_piece_selMutual _ pk tk htkc hoccc
          (piecesSelOnly_tilePieceForward hso1 hfwd)⟩, hso⟩
    · rw [if_neg hc]
      exact ⟨⟨hfwd, hsome, hselt, halpha, hpsel, hmut⟩, piecesSelOnly_refl b⟩

theorem selNewBranch_inv (pressed0 last0 : Bool) (b : GameBoard)
    (hinv : boardInv b) :
    boardInv (b.selNewBranch pressed0 last0) ∧
    piecesSelOnly b (b.selNewBranch pressed0 last0) := by
  obtain ⟨hfwd, hsome, hselt, halpha, hpsel, hmut⟩ := hinv
  cases hS : b.selTilePiece with
  | none =>
    simp only [GameBoard.selNewBranch, hS]
    exact ⟨⟨hfwd, hsome, hselt, halpha, hpsel, hmut⟩, piecesSelOnly_refl b⟩
  | some pk =>
    simp only [GameBoard.selNewBranch, hS]
    by_cases hc : last0 = false ∧ pressed0 = true ∧ b.piece_selected = none
    · rw [if_pos hc]
      obtain ⟨tk, htmx, htk, hocc⟩ := selTilePiece_spec b pk hS hselt
      have hpkb : pk < b.pieces.length := forward_pk_bound b tk pk htk hocc hfwd
      have hso : piecesSelOnly b (b.set_selected_piece pk) :=
        set_selected_piece_selOnly b pk
      have hall : ∀ j, (hj : j < b.pieces.length) →
          (b.pieces[j]).selected = false := by
        intro j hj
        have := hpsel.1 j hj
        rw [hc.2.2] at this
        rw [← Bool.not_eq_true]
        intro hx
        exact absurd (this.mp hx) (by simp)
      refine ⟨⟨piecesSelOnly_tilePieceForward hso hfwd,
        piecesSelOnly_pieceTileSome hso hsome,
        piecesSelOnly_tileSelInv hso hselt,
        piecesSelOnly_tileAlphaInv hso halpha,
        set_selected_piece_pieceSelInv b pk hpkb hall,
        set_selected_piece_selMutual b pk tk htk hocc hfwd⟩, hso⟩
    · rw [if_neg hc]
      exact ⟨⟨hfwd, hsome, hselt, halpha, hpsel, hmut⟩, piecesSelOnly_refl b⟩

/-! ### The move operation -/

/-- What `move_selected_piece(piece, tile)` does, spelled out, when the
moving piece is the selected one, its home tile exists and the destination
is a different tile: the piece is repositioned onto the destination tile and
rewired to it, the old home tile's occupant is cleared, the destination's
occupant becomes the piece, and the trailing `clear_selected_piece` drops
the selection and the blink flag. -/
theorem move_selected_piece_eq (b : GameBoard) (pk tk ok : Nat)
    (t ot : GameTile) (p : GamePiece)
    (ht : b.tiles1[tk]? = some t) (hp : b.pieces[pk]? = some p)
    (hok : p.tile = some ok) (hot : b.tiles1[ok]? = some ot)
    (hne : ok ≠ tk) (hsel : b.piece_selected = some pk) :
    b.move_selected_piece pk tk =
      { b with
        pieces := b.pieces.set pk
          { (p.set_x t.x).set_y t.y with
            tile := some tk, selected := false, blinking := false },
        tiles1 := (b.tiles1.set ok { ot with piece := none }).set tk
          { t with piece := some pk },
        piece_selected := none } := by
  have hpk : pk < b.pieces.length := (List.getElem?_eq_some.mp hp).1
  have hp1tile : ((p.set_x t.x).set_y t.y).tile = some ok := hok
  have hp2 : (b.pieces.set pk ((p.set_x t.x).set_y t.y))[pk]? =
      some ((p.set_x t.x).set_y t.y) :=
    List.getElem?_set_self (by simpa using hpk)
  have ht2 : (b.tiles1.set ok { ot with piece := none })[tk]? = some t := by
    rw [List.getElem?_set_ne hne, ht]
  simp only [GameBoard.move_selected_piece, ht, hp, hp1tile, hot, hp2, ht2,
    GameBoard.clear_selected_piece, hsel, List.set_set]
  split
  next hnone =>
    rw [List.getElem?_set_self (by simpa using hpk)] at hnone
    exact Option.noConfusion hnone
  next p4 hsome =>
    rw [List.getElem?_set_self (by simpa using hpk)] at hsome
    obtain rfl := Option.some.inj hsome
    simp only [blinking_fset_eq, List.set_set]

theorem move_state_inv (b : GameBoard) (pk tk ok : Nat) (t ot : GameTile)
    (p : GamePiece)
    (ht : b.tiles1[tk]? = some t) (hp : b.pieces[pk]? = some p)
    (hok : p.tile = some ok) (hot : b.tiles1[ok]? = some ot)
    (hne : ok ≠ tk) (hsel : b.piece_selected = some pk)
    (hempty : t.piece = none) (hinv : boardInv b) :
    boardInv (b.move_selected_piece pk tk) ∧
    (pieceTileBack b → pieceTileBack (b.move_selected_piece pk tk)) := by
  obtain ⟨hfwd, hsome2, hselt, halpha, hpsel, hmut⟩ := hinv
  have hpk : pk < b.pieces.length := (List.getElem?_eq_some.mp hp).1
  have htkb : tk < b.tiles1.length := (List.getElem?_eq_some.mp ht).1
  have hokb : ok < b.tiles1.length := (List.getElem?_eq_some.mp hot).1
  have htt : b.tiles1[tk] = t := getElem_of_getElem? ht htkb
  have hto : b.tiles1[ok] = ot := getElem_of_getElem? hot hokb
  have hpp : b.pieces[pk] = p := getElem_of_getElem? hp hpk
  have hocc_ok : ot.piece = some pk := by
    have := hmut pk hpk hsel ok hokb (by rw [hpp]; exact hok)
    rw [hto] at this; exact this
  rw [move_selected_piece_eq b pk tk ok t ot p ht hp hok hot hne hsel]
  set MP : GamePiece := { (p.set_x t.x).set_y t.y with
    tile := some tk, selected := false, blinking := false } with hMP
  set T2 : GameTile := { t with piece := some pk } with hT2
  set OT2 : GameTile := { ot with piece := none } with hOT2
  have hMPtile : MP.tile = some tk := rfl
  have hMPsel : MP.selected = false := rfl
  have hT2sel : T2.selected = t.selected := rfl
  have hT2alpha : T2.alpha = t.alpha := rfl
  have hOT2sel : OT2.selected = ot.selected := rfl
  have hOT2alpha : OT2.alpha = ot.alpha := rfl
  have hlent : ((b.tiles1.set ok OT2).set tk T2).length = b.tiles1.length := by
    simp
  have hlenp : (b.pieces.set pk MP).length = b.pieces.length := by simp
  have htile_at : ∀ k, (hk0 : k < b.tiles1.length) →
      (hk1 : k < ((b.tiles1.set ok OT2).set tk T2).length) →
      ((b.tiles1.set ok OT2).set tk T2)[k] =
        if tk = k then T2 else if ok = k then OT2 else b.tiles1[k] := by
    intro k hk0 hk1
    rw [List.getElem_set, List.getElem_set]
  have hpiece_at : ∀ j, (hj0 : j < b.pieces.length) →
      (hj1 : j < (b.pieces.set pk MP).length) →
      (b.pieces.set pk MP)[j] =
        if pk = j then MP else b.pieces[j] := by
    intro j hj0 hj1
    rw [List.getElem_set]
  have hq_at : ∀ j, (b.pieces.set pk MP)[j]? =
      if pk = j then (if pk < b.pieces.length then some MP else none)
      else b.pieces[j]? := by
    intro j
    rw [List.getElem?_set]
  refine ⟨⟨?_, ?_, ⟨?_, ?_⟩, ?_, ⟨?_, ?_⟩, ?_⟩, ?_⟩
  -- tilePieceForward
  · intro k hk pk2 hpc
    have hk0 : k < b.tiles1.length := by rw [← hlent]; exact hk
    rw [htile_at k hk0 hk] at hpc
    by_cases htkk : tk = k
    · rw [if_pos htkk] at hpc
      have : pk2 = pk := by
        rw [hT2] at hpc
        exact (Option.some.inj hpc).symm
      subst this
      rw [hq_at pk2, if_pos rfl, if_pos hpk]
      simp [hMPtile, htkk]
    · rw [if_neg htkk] at hpc
      by_cases hokk : ok = k
      · rw [if_pos hokk] at hpc
        rw [hOT2] at hpc
        exact absurd hpc (by simp)
      · rw [if_neg hokk] at hpc
        have hfk := hfwd k hk0 pk2 hpc
        have hpk2ne : pk2 ≠ pk := by
          intro hx
          subst hx
          have : (b.pieces[pk2]?).map GamePiece.tile = some (some k) := hfk
          rw [hp] at this
          have : p.tile = some k := by simpa using this
          rw [hok] at this
          exact hokk (Option.some.inj this)
        rw [hq_at pk2, if_neg (fun hx => hpk2ne hx.symm)]
        exact hfk
  -- pieceTileSome
  · intro j hj
    have hj0 : j < b.pieces.length := by rw [← hlenp]; exact hj
    rw [hpiece_at j hj0 hj]
    by_cases hjk : pk = j
    · rw [if_pos hjk]
      refine ⟨by rw [hMPtile]; simp, ?_⟩
      rw [hMPtile]
      simpa [optInBounds, hlent] using htkb
    · rw [if_neg hjk]
      have := hsome2 j hj0
      refine ⟨this.1, ?_⟩
      have h2 := this.2
      cases hx : (b.pieces[j]).tile with
      | none => simp [optInBounds, hx]
      | some kk =>
        rw [hx] at h2
        simpa [optInBounds, hlent] using optInBounds_some h2
  -- tileSelInv (selected flags unchanged, tmx unchanged)
  · intro k hk
    have hk0 : k < b.tiles1.length := by rw [← hlent]; exact hk
    rw [htile_at k hk0 hk]
    by_cases htkk : tk = k
    · rw [if_pos htkk, hT2sel]
      show t.selected = true ↔ b.tmx_tile_selected = some k
      rw [← htkk, ← htt]
      exact hselt.1 tk htkb
    · rw [if_neg htkk]
      by_cases hokk : ok = k
      · rw [if_pos hokk, hOT2sel]
        show ot.selected = true ↔ b.tmx_tile_selected = some k
        rw [← hokk, ← hto]
        exact hselt.1 ok hokb
      · rw [if_neg hokk]
        exact hselt.1 k hk0
  · show optInBounds b.tmx_tile_selected
      ((b.tiles1.set ok OT2).set tk T2).length = true
    rw [hlent]
    exact hselt.2
  -- tileAlphaInv
  · intro k hk
    have hk0 : k < b.tiles1.length := by rw [← hlent]; exact hk
    rw [htile_at k hk0 hk]
    by_cases htkk : tk = k
    · rw [if_pos htkk, hT2alpha, hT2sel, ← htt]
      exact halpha tk htkb
    · rw [if_neg htkk]
      by_cases hokk : ok = k
      · rw [if_pos hokk, hOT2alpha, hOT2sel, ← hto]
        exact halpha ok hokb
      · rw [if_neg hokk]
        exact halpha k hk0
  -- pieceSelInv part 1: nothing selected
  · intro j hj
    have hj0 : j < b.pieces.length := by rw [← hlenp]; exact hj
    rw [hpiece_at j hj0 hj]
    by_cases hjk : pk = j
    · rw [if_pos hjk, hMPsel]
      simp
    · rw [if_neg hjk]
      have := hpsel.1 j hj0
      rw [hsel] at this
      constructor
      · intro hx
        exact absurd (Option.some.inj (this.mp hx)) hjk
      · intro hx
        exact absurd hx (by simp)
  · simp [optInBounds]
  -- selMutual: vacuous, nothing selected
  · intro pj hpj hps
    exact absurd hps (by simp)
  -- pieceTileBack
  · intro hback
    intro pj hpj k hkt
    have hpj0 : pj < b.pieces.length := by rw [← hlenp]; exact hpj
    rw [hpiece_at pj hpj0 hpj] at hkt
    by_cases hjk : pk = pj
    · rw [if_pos hjk, hMPtile] at hkt
      have hktk : tk = k := Option.some.inj hkt
      have hkb2 : k < b.tiles1.length := hktk ▸ htkb
      have hkE : k < ((b.tiles1.set ok OT2).set tk T2).length := by
        rw [hlent]; exact hkb2
      rw [List.getElem?_eq_getElem hkE, htile_at k hkb2 hkE, if_pos hktk]
      simp [hT2, hjk]
    · rw [if_neg hjk] at hkt
      have hbk := hback pj hpj0 k hkt
      have hkb : k < b.tiles1.length := by
        cases hx : b.tiles1[k]? with
        | none => rw [hx] at hbk; simp at hbk
        | some tt => exact (List.getElem?_eq_some.mp hx).1
      have hktk : k ≠ tk := by
        intro hx
        rw [hx, ht] at hbk
        have hth : t.piece = some pj := by simpa using hbk
        rw [hempty] at hth
        exact Option.noConfusion hth
      have hkok : k ≠ ok := by
        intro hx
        rw [hx, hot] at hbk
        have hoth : ot.piece = some pj := by simpa using hbk
        rw [hocc_ok] at hoth
        exact hjk (Option.some.inj hoth)
      have hkE : k < ((b.tiles1.set ok OT2).set tk T2).length := by
        rw [hlent]; exact hkb
      rw [List.getElem?_eq_getElem hkE, htile_at k hkb hkE,
        if_neg (fun hx => hktk hx.symm), if_neg (fun hx => hkok hx.symm)]
      rw [List.getElem?_eq_getElem hkb] at hbk
      exact hbk

theorem selMoveBranch_inv (pressed0 last0 : Bool) (b : GameBoard)
    (hinv : boardInv b) :
    boardInv (b.selMoveBranch pressed0 last0) ∧
    (pieceTileBack b → pieceTileBack (b.selMoveBranch pressed0 last0)) := by
  obtain ⟨hfwd, hsome2, hselt, halpha, hpsel, hmut⟩ := hinv
  cases hA : b.piece_selected with
  | none =>
    simp only [GameBoard.selMoveBranch, hA]
    exact ⟨⟨hfwd, hsome2, hselt, halpha, hpsel, hmut⟩, fun h => h⟩
  | some pk =>
    cases hT : b.tmx_tile_selected with
    | none =>
      simp only [GameBoard.selMoveBranch, hA, hT]
      exact ⟨⟨hfwd, hsome2, hselt, halpha, hpsel, hmut⟩, fun h => h⟩
    | some tk =>
      simp only [GameBoard.selMoveBranch, hA, hT]
      by_cases hc : last0 = false ∧ pressed0 = true ∧
          (b.tiles1[tk]?).map GameTile.piece = some none
      · rw [if_pos hc]
        have hemp := hc.2.2
        have htkb : tk < b.tiles1.length := optInBounds_some (hT ▸ hselt.2)
        have ht : b.tiles1[tk]? = some (b.tiles1[tk]) :=
          List.getElem?_eq_getElem htkb
        have hempty : (b.tiles1[tk]).piece = none := by
          rw [ht] at hemp
          simpa using hemp
        have hpk : pk < b.pieces.length := optInBounds_some (hA ▸ hpsel.2)
        have hp : b.pieces[pk]? = some (b.pieces[pk]) :=
          List.getElem?_eq_getElem hpk
        cases hokx : (b.pieces[pk]).tile with
        | none => exact absurd hokx (hsome2 pk hpk).1
        | some ok =>
          have hokb : ok < b.tiles1.length := by
            have h2 := (hsome2 pk hpk).2
            rw [hokx] at h2
            exact optInBounds_some h2
          have hot : b.tiles1[ok]? = some (b.tiles1[ok]) :=
            List.getElem?_eq_getElem hokb
          have hne : ok ≠ tk := by
            intro hx2
            have hthis := hmut pk hpk hA ok hokb hokx
            have hq : (b.tiles1[ok]?).map GameTile.piece = some (some pk) := by
              rw [hot]
              simpa using hthis
            rw [hx2] at hq
            rw [hc.2.2] at hq
            simp at hq
          exact move_state_inv b pk tk ok (b.tiles1[tk]) (b.tiles1[ok])
            (b.pieces[pk]) ht hp hokx hot hne hA hempty
            ⟨hfwd, hsome2, hselt, halpha, hpsel, hmut⟩
      · rw [if_neg hc]
        exact ⟨⟨hfwd, hsome2, hselt, halpha, hpsel, hmut⟩, fun h => h⟩

/-! ### The per-piece animation pass and the full tick -/

theorem tick_piece_core (p : GamePiece) :
    GamePiece.core (GamePiece.tick p) = GamePiece.core p := by
  unfold GamePiece.tick
  by_cases hs : p.selected <;> by_cases hb : p.blinking <;>
    simp [hs, hb, GamePiece.core]

theorem tick_piece_selected (p : GamePiece) :
    (GamePiece.tick p).selected = p.selected := by
  unfold GamePiece.tick
  by_cases hs : p.selected <;> by_cases hb : p.blinking <;> simp [hs, hb]

theorem tick_piece_tile (p : GamePiece) :
    (GamePiece.tick p).tile = p.tile :=
  congrArg (fun q => q.2.2.2.2.2.2) (tick_piece_core p)

theorem pieceTickPhase_inv (b : GameBoard) (hinv : boardInv b) :
    boardInv { b with pieces := b.pieces.map GamePiece.tick } ∧
    piecesSelOnly b { b with pieces := b.pieces.map GamePiece.tick } ∧
    (pieceTileBack b →
      pieceTileBack { b with pieces := b.pieces.map GamePiece.tick }) := by
  obtain ⟨hfwd, hsome2, hselt, halpha, hpsel, hmut⟩ := hinv
  have hso : piecesSelOnly b { b with pieces := b.pieces.map GamePiece.tick } := by
    refine ⟨rfl, rfl, rfl, rfl, rfl, by simp, ?_⟩
    intro j
    show ((b.pieces.map GamePiece.tick)[j]?).map GamePiece.core =
      (b.pieces[j]?).map GamePiece.core
    rw [List.getElem?_map]
    cases hx : b.pieces[j]? with
    | none => rfl
    | some p => simp [tick_piece_core]
  have hlen : (b.pieces.map GamePiece.tick).length = b.pieces.length := by simp
  have hpsel2 : pieceSelInv { b with pieces := b.pieces.map GamePiece.tick } := by
    constructor
    · intro j hj
      have hj0 : j < b.pieces.length := by
        simpa using hj
      have hjm : j < (b.pieces.map GamePiece.tick).length := hj
      show ((b.pieces.map GamePiece.tick)[j]).selected = true ↔
        b.piece_selected = some j
      rw [List.getElem_map, tick_piece_selected]
      exact hpsel.1 j hj0
    · show optInBounds b.piece_selected (b.pieces.map GamePiece.tick).length = true
      rw [hlen]
      exact hpsel.2
  have hmut2 : selMutual { b with pieces := b.pieces.map GamePiece.tick } := by
    intro pj hpj hps k hk hkt
    have hpj0 : pj < b.pieces.length := by simpa using hpj
    have hpjm : pj < (b.pieces.map GamePiece.tick).length := hpj
    have hkt0 : (b.pieces[pj]).tile = some k := by
      rw [show ((b.pieces.map GamePiece.tick)[pj]) =
        GamePiece.tick (b.pieces[pj]) from List.getElem_map _,
        tick_piece_tile] at hkt
      exact hkt
    exact hmut pj hpj0 hps k hk hkt0
  refine ⟨⟨piecesSelOnly_tilePieceForward hso hfwd,
    piecesSelOnly_pieceTileSome hso hsome2,
    piecesSelOnly_tileSelInv hso hselt,
    piecesSelOnly_tileAlphaInv hso halpha, hpsel2, hmut2⟩, hso,
    piecesSelOnly_pieceTileBack hso⟩

theorem tick_boardInv (b : GameBoard) (mpos : Int × Int)
    (pressed0 last0 : Bool) (hinv : boardInv b) :
    boardInv (b.tick mpos pressed0 last0) ∧
    (pieceTileBack b → pieceTileBack (b.tick mpos pressed0 last0)) := by
  obtain ⟨hfwd, hsome2, hselt, halpha, hpsel, hmut⟩ := hinv
  have hso1 : tilesSelOnly b (b.highlightPhase mpos) :=
    highlightPhase_selOnly mpos b
  obtain ⟨hs1, ha1, -⟩ := highlightPhase_inv mpos b hselt halpha
  have hinv1 : boardInv (b.highlightPhase mpos) :=
    ⟨tilesSelOnly_tilePieceForward hso1 hfwd,
     tilesSelOnly_pieceTileSome hso1 hsome2, hs1, ha1,
     tilesSelOnly_pieceSelInv hso1 hpsel,
     tilesSelOnly_selMutual hso1 hmut⟩
  obtain ⟨hinv2, hso2⟩ := selReselectBranch_inv pressed0 _ hinv1
  obtain ⟨hinv3, hso3⟩ := selNewBranch_inv pressed0 last0 _ hinv2
  obtain ⟨hinv4, hback4⟩ := selMoveBranch_inv pressed0 last0 _ hinv3
  obtain ⟨hinv5, hso5, hback5⟩ := pieceTickPhase_inv _ hinv4
  refine ⟨hinv5, ?_⟩
  intro hback
  exact hback5 (hback4 (piecesSelOnly_pieceTileBack hso3
    (piecesSelOnly_pieceTileBack hso2
      (tilesSelOnly_pieceTileBack hso1 hback))))

/-! ### Setup establishes the invariants -/

theorem mkGameTile_fields (idx : Nat) (c : MapCell) :
    (mkGameTile idx c).piece = none ∧ (mkGameTile idx c).selected = false ∧
    (mkGameTile idx c).alpha = GAME_BOARD_TILE_ALPHA_NORMAL :=
  ⟨rfl, rfl, rfl⟩

theorem pristine_start (bx bY : Int) : pristineBoard (GameBoard.start bx bY) := by
  refine ⟨rfl, rfl, rfl, ?_⟩
  intro k h
  simp [GameBoard.start] at h

theorem place_tile_pristine (b : GameBoard) (c : MapCell)
    (h : pristineBoard b) : pristineBoard (b.place_tile c) := by
  obtain ⟨hpieces, hpsel, htmx, htiles⟩ := h
  unfold GameBoard.place_tile
  by_cases h0 : c.layer = 0
  · rw [if_pos h0]
    exact ⟨hpieces, hpsel, htmx, htiles⟩
  · rw [if_neg h0]
    by_cases h1 : c.layer = 1
    · rw [if_pos h1]
      refine ⟨hpieces, hpsel, htmx, ?_⟩
      intro k hk
      have hkm : k < (b.tiles1 ++ [mkGameTile (b.tiles1.length + 1) c]).length := hk
      show ((b.tiles1 ++ [mkGameTile (b.tiles1.length + 1) c])[k]).piece =
          none ∧ _ ∧ _
      rw [List.getElem_append]
      by_cases hlt : k < b.tiles1.length
      · simp only [hlt, dif_pos]
        exact htiles k hlt
      · have hk1 : k < b.tiles1.length + 1 := by simpa using hk
        have hke : k = b.tiles1.length := by omega
        subst hke
        rw [dif_neg (Nat.lt_irrefl _)]
        simp only [Nat.sub_self, List.getElem_cons_zero]
        exact mkGameTile_fields _ c
    · rw [if_neg h1]
      exact ⟨hpieces, hpsel, htmx, htiles⟩

theorem foldl_place_tile_pristine (cells : List MapCell) :
    ∀ b : GameBoard, pristineBoard b →
      pristineBoard (cells.foldl GameBoard.place_tile b) := by
  induction cells with
  | nil => exact fun b h => h
  | cons c cells ih =>
    intro b h
    exact ih _ (place_tile_pristine b c h)

theorem map_tiles_pristine (b : GameBoard) (A : List GameTile)
    (f : GameTile → GameTile)
    (hf : ∀ t, (f t).piece = t.piece ∧ (f t).selected = t.selected ∧
      (f t).alpha = t.alpha)
    (h : pristineBoard b) :
    pristineBoard { b with tiles0 := A, tiles1 := b.tiles1.map f } := by
  obtain ⟨hpieces, hpsel, htmx, htiles⟩ := h
  refine ⟨hpieces, hpsel, htmx, ?_⟩
  intro k hk
  have hk0 : k < b.tiles1.length := by simpa using hk
  have hkm : k < (b.tiles1.map f).length := hk
  show ((b.tiles1.map f)[k]).piece = none ∧ _ ∧ _
  rw [List.getElem_map]
  obtain ⟨h1, h2, h3⟩ := htiles k hk0
  obtain ⟨g1, g2, g3⟩ := hf (b.tiles1[k])
  exact ⟨g1.trans h1, g2.trans h2, g3.trans h3⟩

theorem set_xy_tile_fields (t : GameTile) (u v : Int) :
    ((t.set_x u).set_y v).piece = t.piece ∧
    ((t.set_x u).set_y v).selected = t.selected ∧
    ((t.set_x u).set_y v).alpha = t.alpha :=
  ⟨rfl, rfl, rfl⟩

theorem pristine_boardInv (b : GameBoard) (h : pristineBoard b) :
    boardInv b ∧ pieceTileBack b ∧ b.piece_selected = none := by
  obtain ⟨hpieces, hpsel, htmx, htiles⟩ := h
  have hlen : b.pieces.length = 0 := by rw [hpieces]; rfl
  refine ⟨⟨?_, ?_, ⟨?_, ?_⟩, ?_, ⟨?_, ?_⟩, ?_⟩, ?_, hpsel⟩
  · intro k hk pk hpc
    rw [(htiles k hk).1] at hpc
    exact Option.noConfusion hpc
  · intro pk hpk
    rw [hlen] at hpk
    exact absurd hpk (Nat.not_lt_zero pk)
  · intro k hk
    rw [(htiles k hk).2.1, htmx]
    simp
  · rw [htmx]; simp [optInBounds]
  · intro k hk
    rw [(htiles k hk).2.2, (htiles k hk).2.1]
    simp
  · intro j hj
    rw [hlen] at hj
    exact absurd hj (Nat.not_lt_zero j)
  · rw [hpsel]; simp [optInBounds]
  · intro pj hpj
    rw [hlen] at hpj
    exact absurd hpj (Nat.not_lt_zero pj)
  · intro pj hpj
    rw [hlen] at hpj
    exact absurd hpj (Nat.not_lt_zero pj)

theorem place_piece_tiles_other (b : GameBoard) (tk : Nat) (w h : Int)
    (k : Nat) (hk : k ≠ tk) :
    (b.place_piece tk w h).tiles1[k]? = b.tiles1[k]? := by
  cases ht : b.tiles1[tk]? with
  | none => simp only [GameBoard.place_piece, ht]
  | some t =>
    simp only [GameBoard.place_piece, ht]
    exact List.getElem?_set_ne (fun hx => hk hx.symm)

theorem place_piece_inv (b : GameBoard) (tk : Nat) (w h : Int)
    (hpsel0 : b.piece_selected = none) (hinv : boardInv b) :
    boardInv (b.place_piece tk w h) ∧
    (b.place_piece tk w h).piece_selected = none := by
  obtain ⟨hfwd, hsome2, hselt, halpha, hpsel, hmut⟩ := hinv
  cases ht : b.tiles1[tk]? with
  | none =>
    simp only [GameBoard.place_piece, ht]
    exact ⟨⟨hfwd, hsome2, hselt, halpha, hpsel, hmut⟩, hpsel0⟩
  | some t =>
    have htkb : tk < b.tiles1.length := (List.getElem?_eq_some.mp ht).1
    have htt : b.tiles1[tk] = t := getElem_of_getElem? ht htkb
    simp only [GameBoard.place_piece, ht]
    set n := b.pieces.length with hn
    set NP : GamePiece :=
      { ({ index := b.pieces.length + 1, x := 0, y := 0, layer := 0,
            selected := false, piece := none, rect := ⟨0, 0, w, h⟩,
            alpha := GAME_BOARD_TILE_ALPHA_NORMAL, tile := none,
            blinking := false : GamePiece }.set_x t.x).set_y t.y with
        tile := some tk } with hNP
    set T2 : GameTile := { t with piece := some n } with hT2
    have hNPtile : NP.tile = some tk := rfl
    have hNPsel : NP.selected = false := rfl
    have hT2sel : T2.selected = t.selected := rfl
    have hT2alpha : T2.alpha = t.alpha := rfl
    have hT2piece : T2.piece = some n := rfl
    have hlent : (b.tiles1.set tk T2).length = b.tiles1.length := by simp
    have hlenp : (b.pieces ++ [NP]).length = n + 1 := by simp
    have htile_at : ∀ k, (hk0 : k < b.tiles1.length) →
        (hk1 : k < (b.tiles1.set tk T2).length) →
        (b.tiles1.set tk T2)[k] =
          if tk = k then T2 else b.tiles1[k] := by
      intro k hk0 hk1
      rw [List.getElem_set]
    have hpiece_at : ∀ j, (b.pieces ++ [NP])[j]? =
        if j < n then b.pieces[j]? else if j = n then some NP else none := by
      intro j
      by_cases hj : j < n
      · rw [if_pos hj, List.getElem?_append_left hj]
      · rw [if_neg hj]
        by_cases hje : j = n
        · subst hje
          rw [if_pos rfl]
          exact List.getElem?_concat_length b.pieces NP
        · rw [if_neg hje]
          rw [List.getElem?_eq_none]
          rw [hlenp]
          omega
    refine ⟨⟨?_, ?_, ⟨?_, ?_⟩, ?_, ⟨?_, ?_⟩, ?_⟩, hpsel0⟩
    · -- tilePieceForward
      intro k hk pk2 hpc
      have hk0 : k < b.tiles1.length := by rw [← hlent]; exact hk
      rw [htile_at k hk0 hk] at hpc
      by_cases htkk : tk = k
      · rw [if_pos htkk, hT2piece] at hpc
        obtain rfl : n = pk2 := Option.some.inj hpc
        rw [hpiece_at n, if_neg (Nat.lt_irrefl n), if_pos rfl]
        rw [← htkk]
        simp [hNPtile]
      · rw [if_neg htkk] at hpc
        have hfk := hfwd k hk0 pk2 hpc
        have hpk2 : pk2 < n := by
          cases hx : b.pieces[pk2]? with
          | none => rw [hx] at hfk; simp at hfk
          | some q => exact (List.getElem?_eq_some.mp hx).1
        rw [hpiece_at pk2, if_pos hpk2]
        exact hfk
    · -- pieceTileSome
      intro j hj
      have hjm : j < (b.pieces ++ [NP]).length := hj
      have hj1 : j < n + 1 := by rw [← hlenp]; exact hj
      show ((b.pieces ++ [NP])[j]).tile ≠ none ∧
        optInBounds ((b.pieces ++ [NP])[j]).tile
          (b.tiles1.set tk T2).length = true
      have hq : (b.pieces ++ [NP])[j]? = some ((b.pieces ++ [NP])[j]) :=
        List.getElem?_eq_getElem hjm
      by_cases hjn : j < n
      · rw [hpiece_at j, if_pos hjn] at hq
        have hje : (b.pieces ++ [NP])[j] = b.pieces[j] := by
          have := (List.getElem?_eq_getElem hjn).symm.trans hq
          exact (Option.some.inj this).symm
        rw [hje, hlent]
        exact hsome2 j hjn
      · have hje2 : j = n := by omega
        subst hje2
        rw [hpiece_at n, if_neg hjn, if_pos rfl] at hq
        have hje : (b.pieces ++ [NP])[n] = NP := Option.some.inj hq.symm
        rw [hje, hNPtile, hlent]
        constructor
        · simp
        · simpa [optInBounds] using htkb
    · -- tileSelInv.1
      intro k hk
      have hk0 : k < b.tiles1.length := by rw [← hlent]; exact hk
      rw [htile_at k hk0 hk]
      by_cases htkk : tk = k
      · rw [if_pos htkk, hT2sel]
        show t.selected = true ↔ b.tmx_tile_selected = some k
        rw [← htkk, ← htt]
        exact hselt.1 tk htkb
      · rw [if_neg htkk]
        exact hselt.1 k hk0
    · show optInBounds b.tmx_tile_selected (b.tiles1.set tk T2).length = true
      rw [hlent]
      exact hselt.2
    · -- tileAlphaInv
      intro k hk
      have hk0 : k < b.tiles1.length := by rw [← hlent]; exact hk
      rw [htile_at k hk0 hk]
      by_cases htkk : tk = k
      · rw [if_pos htkk, hT2alpha, hT2sel, ← htt]
        exact halpha tk htkb
      · rw [if_neg htkk]
        exact halpha k hk0
    · -- pieceSelInv.1
      intro j hj
      have hjm : j < (b.pieces ++ [NP]).length := hj
      have hj1 : j < n + 1 := by rw [← hlenp]; exact hj
      have hq : (b.pieces ++ [NP])[j]? = some ((b.pieces ++ [NP])[j]) :=
        List.getElem?_eq_getElem hjm
      rw [hpsel0]
      by_cases hjn : j < n
      · rw [hpiece_at j, if_pos hjn] at hq
        have hje : (b.pieces ++ [NP])[j] = b.pieces[j] := by
          have := (List.getElem?_eq_getElem hjn).symm.trans hq
          exact (Option.some.inj this).symm
        rw [hje]
        have := hpsel.1 j hjn
        rw [hpsel0] at this
        exact this
      · have hje2 : j = n := by omega
        subst hje2
        rw [hpiece_at n, if_neg hjn, if_pos rfl] at hq
        have hje : (b.pieces ++ [NP])[n] = NP := Option.some.inj hq.symm
        rw [hje, hNPsel]
        simp
    · rw [hpsel0]
      simp [optInBounds]
    · -- selMutual (vacuous: nothing selected)
      intro pj hpj hps
      rw [hpsel0] at hps
      exact absurd hps (by simp)

theorem place_piece_back (b : GameBoard) (tk : Nat) (w h : Int)
    (hback : pieceTileBack b)
    (hemp : ∀ (htk : tk < b.tiles1.length), (b.tiles1[tk]).piece = none) :
    pieceTileBack (b.place_piece tk w h) := by
  cases ht : b.tiles1[tk]? with
  | none =>
    simp only [GameBoard.place_piece, ht]
    exact hback
  | some t =>
    have htkb : tk < b.tiles1.length := (List.getElem?_eq_some.mp ht).1
    have htt : b.tiles1[tk] = t := getElem_of_getElem? ht htkb
    have htemp : t.piece = none := htt ▸ hemp htkb
    simp only [GameBoard.place_piece, ht]
    set n := b.pieces.length with hn
    set NP : GamePiece :=
      { ({ index := b.pieces.length + 1, x := 0, y := 0, layer := 0,
            selected := false, piece := none, rect := ⟨0, 0, w, h⟩,
            alpha := GAME_BOARD_TILE_ALPHA_NORMAL, tile := none,
            blinking := false : GamePiece }.set_x t.x).set_y t.y with
        tile := some tk } with hNP
    set T2 : GameTile := { t with piece := some n } with hT2
    have hNPtile : NP.tile = some tk := rfl
    have hT2piece : T2.piece = some n := rfl
    have hlent : (b.tiles1.set tk T2).length = b.tiles1.length := by simp
    have hlenp : (b.pieces ++ [NP]).length = n + 1 := by simp
    intro pj hpj k hkt
    have hpjm : pj < (b.pieces ++ [NP]).length := hpj
    have hpj1 : pj < n + 1 := by rw [← hlenp]; exact hpj
    have hq : (b.pieces ++ [NP])[pj]? = some ((b.pieces ++ [NP])[pj]) :=
      List.getElem?_eq_getElem hpjm
    by_cases hjn : pj < n
    · rw [List.getElem?_append_left hjn] at hq
      have hje : (b.pieces ++ [NP])[pj] = b.pieces[pj] := by
        have := (List.getElem?_eq_getElem hjn).symm.trans hq
        exact (Option.some.inj this).symm
      rw [hje] at hkt
      have hbk := hback pj hjn k hkt
      have hkb : k < b.tiles1.length := by
        cases hx : b.tiles1[k]? with
        | none => rw [hx] at hbk; simp at hbk
        | some tt => exact (List.getElem?_eq_some.mp hx).1
      have hktk : k ≠ tk := by
        intro hx
        rw [hx, ht] at hbk
        have hth : t.piece = some pj := by simpa using hbk
        rw [htemp] at hth
        exact Option.noConfusion hth
      rw [List.getElem?_set_ne (fun hx => hktk hx.symm)]
      exact hbk
    · have hje2 : pj = n := by omega
      subst hje2
      rw [List.getElem?_concat_length] at hq
      have hje : (b.pieces ++ [NP])[n] = NP := Option.some.inj hq.symm
      rw [hje, hNPtile] at hkt
      obtain rfl : tk = k := Option.some.inj hkt
      rw [List.getElem?_set_self (by rw [hlent] at *; exact htkb)]
      simp [hT2piece]

theorem place_pieces_fold_inv (w h : Int) :
    ∀ (choices : List Nat) (b : GameBoard),
      boardInv b → b.piece_selected = none →
      boardInv (choices.foldl (fun b c => b.place_piece c w h) b) ∧
      (choices.foldl (fun b c => b.place_piece c w h) b).piece_selected =
        none := by
  intro choices
  induction choices with
  | nil => exact fun b hinv hns => ⟨hinv, hns⟩
  | cons c rest ih =>
    intro b hinv hns
    obtain ⟨hinv2, hns2⟩ := place_piece_inv b c w h hns hinv
    exact ih _ hinv2 hns2

theorem place_pieces_fold_back (w h : Int) :
    ∀ (choices : List Nat) (b : GameBoard),
      boardInv b → b.piece_selected = none → pieceTileBack b →
      choices.Nodup →
      (∀ c ∈ choices, ∀ (hc : c < b.tiles1.length),
        (b.tiles1[c]).piece = none) →
      pieceTileBack (choices.foldl (fun b c => b.place_piece c w h) b) := by
  intro choices
  induction choices with
  | nil => exact fun b _ _ hback _ _ => hback
  | cons c rest ih =>
    intro b hinv hns hback hnd hemp
    obtain ⟨hinv2, hns2⟩ := place_piece_inv b c w h hns hinv
    have hback2 : pieceTileBack (b.place_piece c w h) :=
      place_piece_back b c w h hback (fun hc => hemp c (List.mem_cons_self c rest) hc)
    have hemp2 : ∀ c2 ∈ rest,
        ∀ (hc : c2 < (b.place_piece c w h).tiles1.length),
        ((b.place_piece c w h).tiles1[c2]).piece = none := by
      intro c2 hc2 hc
      have hne : c2 ≠ c := by
        intro hx
        subst hx
        exact (List.nodup_cons.mp hnd).1 hc2
      have hother := place_piece_tiles_other b c w h c2 hne
      have hq : (b.place_piece c w h).tiles1[c2]? =
          some ((b.place_piece c w h).tiles1[c2]) :=
        List.getElem?_eq_getElem hc
      rw [hother] at hq
      have hc0 : c2 < b.tiles1.length := (List.getElem?_eq_some.mp hq).1
      have hje : (b.place_piece c w h).tiles1[c2] = b.tiles1[c2] := by
        have := hq.symm.trans (List.getElem?_eq_getElem hc0)
        exact Option.some.inj this
      rw [hje]
      exact hemp c2 (List.mem_cons_of_mem c hc2) hc0
    exact ih _ hinv2 hns2 hback2 (List.nodup_cons.mp hnd).2 hemp2

theorem setup_boardInv (bx bY w h : Int) (cells : List MapCell)
    (choices : List Nat) :
    boardInv ((GameBoard.start bx bY).setup cells choices w h) ∧
    ((GameBoard.start bx bY).setup cells choices w h).piece_selected =
      none := by
  have hpr1 : pristineBoard
      (cells.foldl GameBoard.place_tile (GameBoard.start bx bY)) :=
    foldl_place_tile_pristine cells _ (pristine_start bx bY)
  obtain ⟨hinv2, hback2, hpsel2⟩ :=
    pristine_boardInv _ (map_tiles_pristine _ _ _
      (fun t => set_xy_tile_fields t _ _) hpr1)
  exact place_pieces_fold_inv w h choices _ hinv2 hpsel2

theorem offset_pristine (b1 : GameBoard) (dx dy : Int)
    (h : pristineBoard b1) :
    pristineBoard { b1 with
      tiles0 := b1.tiles0.map (fun t => (t.set_x (t.x + dx)).set_y (t.y + dy)),
      tiles1 := b1.tiles1.map (fun t => (t.set_x (t.x + dx)).set_y (t.y + dy)) } :=
  map_tiles_pristine b1 _ _ (fun t => set_xy_tile_fields t _ _) h

theorem setup_back (bx bY w h : Int) (cells : List MapCell)
    (choices : List Nat) (hnd : choices.Nodup) :
    pieceTileBack ((GameBoard.start bx bY).setup cells choices w h) := by
  have hpr1 : pristineBoard
      (cells.foldl GameBoard.place_tile (GameBoard.start bx bY)) :=
    foldl_place_tile_pristine cells _ (pristine_start bx bY)
  set b1 := cells.foldl GameBoard.place_tile (GameBoard.start bx bY) with hb1
  have hpr2 := offset_pristine b1
    (b1.x - (Int.ofNat (b1.tiles0.length + b1.tiles1.length) +
      GAME_BOARD_TILE_WIDTH))
    (b1.y - (Int.ofNat (b1.tiles0.length + b1.tiles1.length) +
      GAME_BOARD_TILE_HEIGHT))
    hpr1
  obtain ⟨hinv2, hback2, hpsel2⟩ := pristine_boardInv _ hpr2
  refine place_pieces_fold_back w h choices _ hinv2 hpsel2 hback2 hnd ?_
  intro c hc hlt
  exact (hpr2.2.2.2 c hlt).1

theorem reachable_boardInv (cells : List MapCell) (choices : List Nat)
    (bx bY w h : Int) :
    ∀ s, Reachable (startState cells choices bx bY w h) s →
      boardInv s.board := by
  intro s hr
  induction hr with
  | refl => exact (setup_boardInv bx bY w h cells choices).1
  | step inp hr ih =>
    exact (tick_boardInv _ _ _ _ ih).1

theorem reachable_back (cells : List MapCell) (choices : List Nat)
    (bx bY w h : Int) (hnd : choices.Nodup) :
    ∀ s, Reachable (startState cells choices bx bY w h) s →
      boardInv s.board ∧ pieceTileBack s.board := by
  intro s hr
  induction hr with
  | refl =>
    exact ⟨(setup_boardInv bx bY w h cells choices).1,
      setup_back bx bY w h cells choices hnd⟩
  | step inp hr ih =>
    exact ⟨(tick_boardInv _ _ _ _ ih.1).1, (tick_boardInv _ _ _ _ ih.1).2 ih.2⟩

/-! ### Theorems: the tile/piece mutual-reference invariant (claim C1) -/

/-- Counterexample to claim C1 as stated: the twelve `random.choice` draws
may repeat a tile.  On a one-inner-tile map every draw is that tile (so the
run below is a possible run of the program), and already in the state
immediately after `setup` the mutual-reference invariant is broken: all
twelve pieces name the tile as their home, while the tile's occupant
reference names only the last piece. -/
theorem mutual_references_cex :
    Reachable exInitDup exInitDup ∧
    (∀ c ∈ List.replicate GAME_BOARD_NUM_PIECES 0,
      c < exInitDup.board.tiles1.length) ∧
    tilePieceForward exInitDup.board ∧
    ¬ pieceTileBack exInitDup.board :=
  ⟨Reachable.refl, by decide, by decide, by decide⟩

/-- Claim C1 as amended: provided the twelve random placement draws during
setup are pairwise distinct, every reachable state of a run — the state
right after board setup and the state after every tick — satisfies the
mutual-reference invariant (each occupied tile's occupant points back at
it, each piece's home tile holds it as occupant), and consequently no two
pieces occupy the same tile. -/
theorem mutual_references_inv (cells : List MapCell) (choices : List Nat)
    (bx bY w h : Int) (hnd : choices.Nodup)
    (hlen : choices.length = GAME_BOARD_NUM_PIECES)
    (s : GameState) (hr : Reachable (startState cells choices bx bY w h) s) :
    tilePieceForward s.board ∧ pieceTileBack s.board ∧
    (∀ p q kp, (hp : p < s.board.pieces.length) →
      (hq : q < s.board.pieces.length) →
      (s.board.pieces[p]).tile = some kp →
      (s.board.pieces[q]).tile = some kp → p = q) := by
  obtain ⟨hinv, hback⟩ := reachable_back cells choices bx bY w h hnd s hr
  refine ⟨hinv.1, hback, ?_⟩
  intro p q kp hp hq hpt hqt
  have h1 := hback p hp kp hpt
  have h2 := hback q hq kp hqt
  rw [h1] at h2
  exact Option.some.inj (Option.some.inj h2)

/-- Witness for C1 (amended) at the concrete 12-tile map with the twelve
draws pairwise distinct, in the state right after setup. -/
theorem mutual_references_inv_witness :
    (List.range 12).Nodup ∧ (List.range 12).length = GAME_BOARD_NUM_PIECES ∧
    (tilePieceForward exInit12.board ∧ pieceTileBack exInit12.board ∧
      (∀ p q kp, (hp : p < exInit12.board.pieces.length) →
        (hq : q < exInit12.board.pieces.length) →
        (exInit12.board.pieces[p]).tile = some kp →
        (exInit12.board.pieces[q]).tile = some kp → p = q)) :=
  ⟨by decide, by decide,
    mutual_references_inv exCells12 (List.range 12) 0 0 32 32 (by decide)
      (by decide) exInit12 Reachable.refl⟩

/-! ### Theorems: unique selected piece (claim C4) -/

/-- Claim C4: at every reachable state, a piece's selected flag is set
exactly when it is the board's recorded selected piece — hence at most one
piece is ever flagged selected, with no distinctness assumption on the
random setup draws.  (The clicked-while-selected branch clears the old
selection before installing the new one; this invariant is what survives
of that across every tick.) -/
theorem piece_selection_unique (cells : List MapCell) (choices : List Nat)
    (bx bY w h : Int) (s : GameState)
    (hr : Reachable (startState cells choices bx bY w h) s) :
    (∀ pk, (hpk : pk < s.board.pieces.length) →
      ((s.board.pieces[pk]).selected = true ↔
        s.board.piece_selected = some pk)) ∧
    (∀ p q, (hp : p < s.board.pieces.length) →
      (hq : q < s.board.pieces.length) →
      (s.board.pieces[p]).selected = true →
      (s.board.pieces[q]).selected = true → p = q) := by
  have hinv := reachable_boardInv cells choices bx bY w h s hr
  have hps := hinv.2.2.2.2.1
  refine ⟨hps.1, ?_⟩
  intro p q hp hq hsp hsq
  have h1 := (hps.1 p hp).mp hsp
  have h2 := (hps.1 q hq).mp hsq
  rw [h1] at h2
  exact Option.some.inj h2

/-- Witness for C4 in a run on the one-tile map where all twelve pieces
stack (the invariant holds regardless), one tick after a press over the
stack selected a piece. -/
theorem piece_selection_unique_witness :
    (∀ pk, (hpk : pk <
        (Game.tick exInitDup ⟨(true, false, false), (-32, -32)⟩).board.pieces.length) →
      (((Game.tick exInitDup ⟨(true, false, false), (-32, -32)⟩).board.pieces[pk]).selected = true ↔
        (Game.tick exInitDup ⟨(true, false, false), (-32, -32)⟩).board.piece_selected = some pk)) ∧
    (∀ p q, (hp : p <
        (Game.tick exInitDup ⟨(true, false, false), (-32, -32)⟩).board.pieces.length) →
      (hq : q <
        (Game.tick exInitDup ⟨(true, false, false), (-32, -32)⟩).board.pieces.length) →
      ((Game.tick exInitDup ⟨(true, false, false), (-32, -32)⟩).board.pieces[p]).selected = true →
      ((Game.tick exInitDup ⟨(true, false, false), (-32, -32)⟩).board.pieces[q]).selected = true →
      p = q) :=
  piece_selection_unique exCellsDup (List.replicate GAME_BOARD_NUM_PIECES 0)
    0 0 32 32 _
    (Reachable.step ⟨(true, false, false), (-32, -32)⟩ Reachable.refl)

/-! ### Theorems: relocating the selected piece (claim C2) -/

theorem selReselectBranch_noSel (pressed0 : Bool) (b : GameBoard)
    (h : b.selTilePiece = none) : b.selReselectBranch pressed0 = b := by
  simp [GameBoard.selReselectBranch, h]

theorem selNewBranch_noSel (pressed0 last0 : Bool) (b : GameBoard)
    (h : b.selTilePiece = none) : b.selNewBranch pressed0 last0 = b := by
  simp [GameBoard.selNewBranch, h]

theorem selMoveBranch_fires (b : GameBoard) (pk tk : Nat)
    (hA : b.piece_selected = some pk) (hT : b.tmx_tile_selected = some tk)
    (hE : (b.tiles1[tk]?).map GameTile.piece = some none) :
    b.selMoveBranch true false = b.move_selected_piece pk tk := by
  simp only [GameBoard.selMoveBranch, hA, hT]
  rw [if_pos ⟨trivial, trivial, hE⟩]

/-- Claim C2: on a tick where the primary button transitions from released
to pressed while a piece is selected and the highlighted tile is empty, the
board relocates the selected piece to that tile: its position becomes the
tile's position, the old home tile's occupant is cleared, the target tile's
occupant becomes the piece, the piece's home-tile reference becomes the
target tile, and the selection is cleared afterward (neither the board
record nor the piece's flag survives the move). -/
theorem move_on_press_edge (b : GameBoard) (mpos : Int × Int)
    (pk tk ok : Nat) (t : GameTile) (p : GamePiece)
    (hinv : boardInv b)
    (hsel : b.piece_selected = some pk)
    (hltk : (b.highlightPhase mpos).tmx_tile_selected = some tk)
    (ht : b.tiles1[tk]? = some t) (hempty : t.piece = none)
    (hp : b.pieces[pk]? = some p) (hok : p.tile = some ok) :
    ∃ p2 t2 ot2,
      (b.tick mpos true false).pieces[pk]? = some p2 ∧
      p2.x = t.x ∧ p2.y = t.y ∧ p2.tile = some tk ∧ p2.selected = false ∧
      (b.tick mpos true false).tiles1[tk]? = some t2 ∧ t2.piece = some pk ∧
      (b.tick mpos true false).tiles1[ok]? = some ot2 ∧ ot2.piece = none ∧
      (b.tick mpos true false).piece_selected = none := by
  obtain ⟨hfwd, hsome2, hselt, halpha, hpsel, hmut⟩ := hinv
  have hso1 : tilesSelOnly b (b.highlightPhase mpos) :=
    highlightPhase_selOnly mpos b
  obtain ⟨hs1, ha1, -⟩ := highlightPhase_inv mpos b hselt halpha
  have hinv1 : boardInv (b.highlightPhase mpos) :=
    ⟨tilesSelOnly_tilePieceForward hso1 hfwd,
     tilesSelOnly_pieceTileSome hso1 hsome2, hs1, ha1,
     tilesSelOnly_pieceSelInv hso1 hpsel,
     tilesSelOnly_selMutual hso1 hmut⟩
  set b1 := b.highlightPhase mpos with hb1
  have hsel1 : b1.piece_selected = some pk := by
    rw [hso1.2.2.2.1]; exact hsel
  have hpieces1 : b1.pieces = b.pieces := hso1.2.2.1
  have hp1 : b1.pieces[pk]? = some p := by rw [hpieces1]; exact hp
  -- the highlighted tile after the phase, with the same core as `t`
  have hcore := hso1.2.2.2.2.2.2 tk
  rw [ht] at hcore
  have htkb : tk < b.tiles1.length := (List.getElem?_eq_some.mp ht).1
  have htkb1 : tk < b1.tiles1.length := by
    rw [hso1.2.2.2.2.2.1]; exact htkb
  have ht1 : b1.tiles1[tk]? = some (b1.tiles1[tk]) :=
    List.getElem?_eq_getElem htkb1
  have hcore1 : GameTile.core (b1.tiles1[tk]) = GameTile.core t := by
    rw [ht1] at hcore
    simpa using hcore
  have ht1piece : (b1.tiles1[tk]).piece = none := by
    have := congrArg (fun q => q.2.2.2.2.1) hcore1
    simpa using this.trans hempty
  have ht1x : (b1.tiles1[tk]).x = t.x :=
    congrArg (fun q => q.2.1) hcore1
  have ht1y : (b1.tiles1[tk]).y = t.y :=
    congrArg (fun q => q.2.2.1) hcore1
  -- the old home tile
  have hpk : pk < b.pieces.length := (List.getElem?_eq_some.mp hp).1
  have hpk1 : pk < b1.pieces.length := by rw [hpieces1]; exact hpk
  have hokb1 : ok < b1.tiles1.length := by
    have h2 := (hinv1.2.1 pk hpk1).2
    have hpe : b1.pieces[pk] = p := getElem_of_getElem? hp1 hpk1
    rw [hpe, hok] at h2
    exact optInBounds_some h2
  have hot1 : b1.tiles1[ok]? = some (b1.tiles1[ok]) :=
    List.getElem?_eq_getElem hokb1
  have hotocc : (b1.tiles1[ok]).piece = some pk := by
    have hpe : b1.pieces[pk] = p := getElem_of_getElem? hp1 hpk1
    exact hinv1.2.2.2.2.2 pk hpk1 hsel1 ok hokb1 (by rw [hpe]; exact hok)
  have hne : ok ≠ tk := by
    intro hx
    have hq : (b1.tiles1[ok]?).map GameTile.piece = some (some pk) := by
      rw [hot1]; simpa using hotocc
    rw [hx, ht1] at hq
    have hq2 : (b1.tiles1[tk]).piece = some pk := by simpa using hq
    rw [ht1piece] at hq2
    exact Option.noConfusion hq2
  -- selTilePiece of b1 is none (the highlighted tile is empty)
  have hstp : b1.selTilePiece = none := by
    simp only [GameBoard.selTilePiece, hltk, ht1, ht1piece]
  -- branch 3 fires with the move
  have hmoveq :=
    move_selected_piece_eq b1 pk tk ok (b1.tiles1[tk]) (b1.tiles1[ok]) p
      ht1 hp1 hok hot1 hne hsel1
  have hphase : GameBoard.selectMovePhase true false b1 =
      b1.move_selected_piece pk tk := by
    unfold GameBoard.selectMovePhase
    rw [selReselectBranch_noSel true b1 hstp,
      selNewBranch_noSel true false b1 hstp]
    refine selMoveBranch_fires b1 pk tk hsel1 hltk ?_
    rw [ht1]
    simp [ht1piece]
  -- the final piece after the per-piece animation pass
  have htick : b.tick mpos true false =
      { b1.move_selected_piece pk tk with
        pieces := (b1.move_selected_piece pk tk).pieces.map GamePiece.tick } := by
    show { GameBoard.selectMovePhase true false b1 with
      pieces := (GameBoard.selectMovePhase true false b1).pieces.map
        GamePiece.tick } = _
    rw [hphase]
  rw [htick, hmoveq]
  set MP : GamePiece := { (p.set_x (b1.tiles1[tk]).x).set_y (b1.tiles1[tk]).y with
    tile := some tk, selected := false, blinking := false } with hMP
  have hpq : (b1.pieces.set pk MP)[pk]? = some MP :=
    List.getElem?_set_self (by simpa using hpk1)
  refine ⟨GamePiece.tick MP, { b1.tiles1[tk] with piece := some pk },
    { b1.tiles1[ok] with piece := none }, ?_, ?_, ?_, ?_, ?_, ?_, rfl, ?_, rfl,
    rfl⟩
  · show ((b1.pieces.set pk MP).map GamePiece.tick)[pk]? = _
    rw [List.getElem?_map, hpq]
    rfl
  · show (GamePiece.tick MP).x = t.x
    have : (GamePiece.tick MP).x = MP.x :=
      congrArg (fun q => q.2.1) (tick_piece_core MP)
    rw [this]
    show (b1.tiles1[tk]).x = t.x
    exact ht1x
  · have : (GamePiece.tick MP).y = MP.y :=
      congrArg (fun q => q.2.2.1) (tick_piece_core MP)
    rw [this]
    show (b1.tiles1[tk]).y = t.y
    exact ht1y
  · rw [tick_piece_tile]
  · rw [tick_piece_selected]
  · show ((b1.tiles1.set ok _).set tk _)[tk]? = _
    exact List.getElem?_set_self (by simpa using htkb1)
  · show ((b1.tiles1.set ok _).set tk _)[ok]? = _
    rw [List.getElem?_set_ne (fun hx => hne hx.symm)]
    exact List.getElem?_set_self (by simpa using hokb1)

/-- Witness for C2: the concrete two-tile board, with the pointer pressed
over the empty second tile while the piece on the first tile is selected. -/
theorem move_on_press_edge_witness :
    boardInv exBoardSel ∧ exBoardSel.piece_selected = some 0 ∧
    (∃ p2 t2 ot2,
      (exBoardSel.tick (40, 5) true false).pieces[0]? = some p2 ∧
      p2.x = exTileB.x ∧ p2.y = exTileB.y ∧ p2.tile = some 1 ∧
      p2.selected = false ∧
      (exBoardSel.tick (40, 5) true false).tiles1[1]? = some t2 ∧
      t2.piece = some 0 ∧
      (exBoardSel.tick (40, 5) true false).tiles1[0]? = some ot2 ∧
      ot2.piece = none ∧
      (exBoardSel.tick (40, 5) true false).piece_selected = none) :=
  ⟨by decide, by decide,
    move_on_press_edge exBoardSel (40, 5) 0 1 0 exTileB exPiece (by decide)
      (by decide) (by decide) (by decide) (by decide) (by decide)
      (by decide)⟩

/-! ### Theorems: a single press never selects and moves in one tick
(claim C6) -/

theorem pieceTick_selOnly (b : GameBoard) :
    piecesSelOnly b { b with pieces := b.pieces.map GamePiece.tick } := by
  refine ⟨rfl, rfl, rfl, rfl, rfl, by simp, ?_⟩
  intro j
  show ((b.pieces.map GamePiece.tick)[j]?).map GamePiece.core =
    (b.pieces[j]?).map GamePiece.core
  rw [List.getElem?_map]
  cases hx : b.pieces[j]? with
  | none => rfl
  | some p => simp [tick_piece_core]

theorem pieces_view_txy {b b' : GameBoard} (hso : piecesSelOnly b b')
    (q : Nat) :
    (b'.pieces[q]?).map (fun p => (p.tile, p.x, p.y)) =
    (b.pieces[q]?).map (fun p => (p.tile, p.x, p.y)) := by
  have hcore := hso.2.2.2.2.2.2 q
  cases h1 : b.pieces[q]? with
  | none =>
    rw [h1] at hcore
    cases h2 : b'.pieces[q]? with
    | none => rfl
    | some p' => rw [h2] at hcore; simp at hcore
  | some p =>
    rw [h1] at hcore
    cases h2 : b'.pieces[q]? with
    | none => rw [h2] at hcore; simp at hcore
    | some p' =>
      rw [h2] at hcore
      have hcore' : GamePiece.core p' = GamePiece.core p := by simpa using hcore
      have h3 : p'.tile = p.tile := congrArg (fun c => c.2.2.2.2.2.2) hcore'
      have h4 : p'.x = p.x := congrArg (fun c => c.2.1) hcore'
      have h5 : p'.y = p.y := congrArg (fun c => c.2.2.1) hcore'
      simp [h3, h4, h5]

theorem selReselectBranch_noPiece (pressed0 : Bool) (b : GameBoard)
    (h : b.piece_selected = none) : b.selReselectBranch pressed0 = b := by
  cases hS : b.selTilePiece with
  | none => simp [GameBoard.selReselectBranch, hS]
  | some pk => simp [GameBoard.selReselectBranch, hS, h]

theorem selNewBranch_fires (b : GameBoard) (pk : Nat)
    (hS : b.selTilePiece = some pk) (h : b.piece_selected = none) :
    b.selNewBranch true false = b.set_selected_piece pk := by
  simp only [GameBoard.selNewBranch, hS]
  rw [if_pos ⟨trivial, trivial, h⟩]

theorem selMoveBranch_occupied (b : GameBoard) (pj tk pk : Nat)
    (hA : b.piece_selected = some pj) (hT : b.tmx_tile_selected = some tk)
    (hocc : (b.tiles1[tk]?).map GameTile.piece = some (some pk)) :
    b.selMoveBranch true false = b := by
  simp only [GameBoard.selMoveBranch, hA, hT]
  rw [if_neg]
  intro hc
  rw [hocc] at hc
  exact Option.noConfusion (Option.some.inj hc.2.2)

/-- Claim C6: on a tick where the selection branch fires — no piece was
selected at the start of the tick and the pointer-press lands on an
occupied highlighted tile — the move branch does not also fire on that same
tick: the tile's occupant is selected, and every occupant reference, every
piece's home-tile reference and every piece's position are exactly as
before the tick. -/
theorem select_and_move_not_same_tick (b : GameBoard) (mpos : Int × Int)
    (pk tk : Nat) (t : GameTile)
    (hsel : b.piece_selected = none)
    (hltk : (b.highlightPhase mpos).tmx_tile_selected = some tk)
    (ht : b.tiles1[tk]? = some t) (hocc : t.piece = some pk) :
    (b.tick mpos true false).piece_selected = some pk ∧
    (∀ j : Nat, ((b.tick mpos true false).tiles1[j]?).map GameTile.piece =
      (b.tiles1[j]?).map GameTile.piece) ∧
    (∀ q : Nat, ((b.tick mpos true false).pieces[q]?).map
        (fun p => (p.tile, p.x, p.y)) =
      (b.pieces[q]?).map (fun p => (p.tile, p.x, p.y))) := by
  have hso1 : tilesSelOnly b (b.highlightPhase mpos) :=
    highlightPhase_selOnly mpos b
  set b1 := b.highlightPhase mpos with hb1
  have hsel1 : b1.piece_selected = none := by
    rw [hso1.2.2.2.1]; exact hsel
  have htkb : tk < b.tiles1.length := (List.getElem?_eq_some.mp ht).1
  have htkb1 : tk < b1.tiles1.length := by
    rw [hso1.2.2.2.2.2.1]; exact htkb
  have ht1 : b1.tiles1[tk]? = some (b1.tiles1[tk]) :=
    List.getElem?_eq_getElem htkb1
  have hview := tiles_piece_view hso1 tk
  rw [ht1, ht] at hview
  have ht1piece : (b1.tiles1[tk]).piece = some pk := by
    have h2 : (b1.tiles1[tk]).piece = t.piece := by simpa using hview
    rw [h2, hocc]
  have hstp : b1.selTilePiece = some pk := by
    simp only [GameBoard.selTilePiece, hltk, ht1, ht1piece]
  set b2 := b1.set_selected_piece pk with hb2
  have hso2 : piecesSelOnly b1 b2 := set_selected_piece_selOnly b1 pk
  have hsel2 : b2.piece_selected = some pk :=
    set_selected_piece_piece_selected b1 pk
  have htmx2 : b2.tmx_tile_selected = some tk := by
    rw [hso2.2.2.2.2.1]; exact hltk
  have hocc2 : (b2.tiles1[tk]?).map GameTile.piece = some (some pk) := by
    rw [hso2.2.2.2.1, ht1]
    simpa using ht1piece
  have hphase : GameBoard.selectMovePhase true false b1 = b2 := by
    unfold GameBoard.selectMovePhase
    rw [selReselectBranch_noPiece true b1 hsel1,
      selNewBranch_fires b1 pk hstp hsel1,
      selMoveBranch_occupied b2 pk tk pk hsel2 htmx2 hocc2]
  have htick : b.tick mpos true false =
      { b2 with pieces := b2.pieces.map GamePiece.tick } := by
    show { GameBoard.selectMovePhase true false b1 with
      pieces := (GameBoard.selectMovePhase true false b1).pieces.map
        GamePiece.tick } = _
    rw [hphase]
  have hso3 : piecesSelOnly b2
      { b2 with pieces := b2.pieces.map GamePiece.tick } :=
    pieceTick_selOnly b2
  rw [htick]
  refine ⟨hsel2, ?_, ?_⟩
  · intro j
    show (b2.tiles1[j]?).map GameTile.piece = _
    rw [hso2.2.2.2.1]
    exact tiles_piece_view hso1 j
  · intro q
    have h1 := pieces_view_txy hso3 q
    have h2 := pieces_view_txy hso2 q
    rw [h1, h2, hso1.2.2.1]

/-- Witness for C6: pressing over the occupied first tile of the concrete
board with nothing selected — the piece gets selected and no occupant,
home-tile or position reference moves. -/
theorem select_and_move_not_same_tick_witness :
    exBoardUnsel.piece_selected = none ∧
    ((exBoardUnsel.tick (5, 5) true false).piece_selected = some 0 ∧
    (∀ j : Nat,
      ((exBoardUnsel.tick (5, 5) true false).tiles1[j]?).map GameTile.piece =
      (exBoardUnsel.tiles1[j]?).map GameTile.piece) ∧
    (∀ q : Nat, ((exBoardUnsel.tick (5, 5) true false).pieces[q]?).map
        (fun p => (p.tile, p.x, p.y)) =
      (exBoardUnsel.pieces[q]?).map (fun p => (p.tile, p.x, p.y)))) :=
  ⟨by decide,
    select_and_move_not_same_tick exBoardUnsel (5, 5) 0 0 exTileA (by decide)
      (by decide) (by decide) (by decide)⟩
